import Mathlib

/-!
Verification development for the toolplex ai-engine tool-invocation pipeline
and session registry.

The development shallowly embeds the TypeScript source:
  * src/utils/schema.ts      — deepSanitizeParams, sanitizeSchemaForGemini
  * src/mcp/MCPClient.ts     — createSession / destroySession / callTool /
                               getSessionInfo / hasSession
  * core/ToolBuilder.ts      — buildMCPTools per-call execute pipeline with
                               per-call cancellation controllers and the
                               turn-level abort listener

JavaScript values handled by the pipeline are modeled by the inductive type
JSValue below.  JavaScript numbers are never inspected by any of the embedded
code (they always fall in the pass-through branches), so they are modeled by
an opaque Int payload.  Exotic property accesses (e.g. the length property of
a string) are modeled as returning undefined.
-/

/-- A JavaScript/JSON value as it flows through the tool-argument pipeline.
Arrays keep element order; objects keep insertion order of their fields. -/
inductive JSValue : Type where
  | undefined : JSValue
  | null : JSValue
  | bool (b : Bool) : JSValue
  | num (n : Int) : JSValue
  | str (s : String) : JSValue
  | arr (items : List JSValue) : JSValue
  | obj (fields : List (String × JSValue)) : JSValue

/-- First-match association list lookup, used both for JavaScript object
property access and for the session registry map. -/
def alistGet {α : Type _} : List (String × α) → String → Option α
  | [], _ => none
  | (k, v) :: rest, key => if k = key then some v else alistGet rest key

/-- JavaScript property access with optional chaining: obj?.key.  Accessing a
property of anything that is not an object (including null/undefined, strings,
numbers, arrays) is modeled as yielding undefined. -/
def jsGet (v : JSValue) (key : String) : JSValue :=
  match v with
  | .obj fields =>
      match alistGet fields key with
      | some x => x
      | none => .undefined
  | _ => .undefined

/-- Leading-whitespace removal over the character list of a string, modeling
the leading half of JavaScript String.prototype.trim (only the leading half is
relevant, since the trimmed text is used solely through startsWith). -/
def dropLeadingWs : List Char → List Char
  | [] => []
  | c :: rest =>
      if c = ' ' ∨ c = '\t' ∨ c = '\n' ∨ c = '\r' then dropLeadingWs rest
      else c :: rest

/-- The string looks like JSON: after trimming it starts with an opening brace
(code point 123) or an opening bracket (code point 91) — schema.ts line 47. -/
def looksLikeJson (s : String) : Bool :=
  match dropLeadingWs s.data with
  | c :: _ => c.toNat = 123 || c.toNat = 91
  | [] => false

/-- JavaScript strict equality schema?.type === tag: true exactly when the
type property is a string equal to tag. -/
def typeTagIs (schema : JSValue) (tag : String) : Bool :=
  match jsGet schema ("type") with
  | .str t => t = tag
  | _ => false

/-- Elementwise traversal of a list under an Option-valued function, keeping
order; none as soon as any element maps to none.  This is the fuel-aware
counterpart of Array.prototype.map in the embedded code. -/
def optMapM {α β : Type _} (g : α → Option β) : List α → Option (List β)
  | [] => some []
  | a :: rest =>
      match g a, optMapM g rest with
      | some b, some bs => some (b :: bs)
      | _, _ => none

/-- Embedding of deepSanitizeParams (src/utils/schema.ts lines 32-122).

The platform JSON.parse primitive is passed in as an abstract function
parse : String → Option JSValue (none models a parse exception).  The
TypeScript recursion terminates because JSON.parse output is strictly smaller
than its input text; the abstract parse parameter gives no such guarantee, so
recursion depth is made explicit with a fuel parameter and exhausted fuel
returns none.  For the real JSON.parse any fuel larger than the nesting depth
of the value suffices, so none never arises for the embedded code.

All branches follow the source order: the explicit string-typed schema check
first, then the object/array-typed schema reparse, then the field-aware
reparse for the historically unreliable field named arguments, then the
conservative pass-through. -/
def deepSanitizeParams (parse : String → Option JSValue) :
    Nat → JSValue → JSValue → Option String → Option JSValue
  | 0, _, _, _ => none
  | _ + 1, .null, _, _ => some .null
  | _ + 1, .undefined, _, _ => some .undefined
  | fuel + 1, .str s, schema, fieldName =>
      if looksLikeJson s then
        if typeTagIs schema ("string") then some (.str s)
        else if typeTagIs schema ("object") || typeTagIs schema ("array") then
          match parse s with
          | some parsed => deepSanitizeParams parse fuel parsed schema fieldName
          | none => some (.str s)
        else if fieldName = some ("arguments") then
          match parse s with
          | some parsed => deepSanitizeParams parse fuel parsed schema fieldName
          | none => some (.str s)
        else some (.str s)
      else some (.str s)
  | fuel + 1, .arr items, schema, fieldName =>
      let itemSchema := jsGet schema ("items")
      (optMapM (fun item =>
        deepSanitizeParams parse fuel item itemSchema fieldName) items).map .arr
  | fuel + 1, .obj fields, schema, _ =>
      let properties := jsGet schema ("properties")
      (optMapM (fun kv =>
        (deepSanitizeParams parse fuel kv.2 (jsGet properties kv.1)
          (some kv.1)).map fun v => (kv.1, v)) fields).map .obj
  | _ + 1, .num n, _, _ => some (.num n)
  | _ + 1, .bool b, _, _ => some (.bool b)

/-- A tiny concrete stand-in for JSON.parse, defined on the two literal JSON
texts used by the concrete witnesses below. -/
def parseFixed (s : String) : Option JSValue :=
  if s = ("\x7b\"a\": 1\x7d") then some (.obj [("a", .num 1)])
  else if s = ("[1, 2]") then some (.arr [.num 1, .num 2])
  else none

example :
    deepSanitizeParams parseFixed 4
      (.obj [("arguments", .str ("\x7b\"a\": 1\x7d"))]) .undefined none =
    some (.obj [("arguments", .obj [("a", .num 1)])]) := by rfl

example :
    deepSanitizeParams parseFixed 4
      (.str ("\x7b\"a\": 1\x7d")) (.obj [("type", .str ("string"))]) none =
    some (.str ("\x7b\"a\": 1\x7d")) := by rfl

lemma optMapM_mono {α β : Type _} {g g₂ : α → Option β} :
    ∀ {l : List α} {r : List β},
      (∀ a ∈ l, ∀ b, g a = some b → g₂ a = some b) →
      optMapM g l = some r → optMapM g₂ l = some r := by
  intro l
  induction l with
  | nil => intro r _ h; exact h
  | cons a rest ih =>
      intro r hmem h
      simp only [optMapM] at h ⊢
      cases hga : g a with
      | none => rw [hga] at h; exact absurd h (by simp)
      | some b =>
          rw [hga] at h
          cases hrest : optMapM g rest with
          | none => rw [hrest] at h; exact absurd h (by simp)
          | some bs =>
              rw [hrest] at h
              simp only [Option.some.injEq] at h
              rw [hmem a (by simp) b hga,
                ih (fun x hx => hmem x (by simp [hx])) hrest]
              exact congrArg some h

lemma optMapM_fix {α : Type _} {g : α → Option α} :
    ∀ {l r : List α},
      (∀ a ∈ l, ∀ b, g a = some b → g b = some b) →
      optMapM g l = some r → optMapM g r = some r := by
  intro l
  induction l with
  | nil =>
      intro r _ h
      simp only [optMapM, Option.some.injEq] at h
      rw [← h]; rfl
  | cons a rest ih =>
      intro r hmem h
      simp only [optMapM] at h
      cases hga : g a with
      | none => rw [hga] at h; exact absurd h (by simp)
      | some b =>
          rw [hga] at h
          cases hrest : optMapM g rest with
          | none => rw [hrest] at h; exact absurd h (by simp)
          | some bs =>
              rw [hrest] at h
              simp only [Option.some.injEq] at h
              subst h
              simp only [optMapM]
              rw [hmem a (by simp) b hga,
                ih (fun x hx => hmem x (by simp [hx])) hrest]

lemma deepSanitizeParams_mono (parse : String → Option JSValue) :
    ∀ (fuel fuel' : Nat) (x schema : JSValue) (fieldName : Option String)
      (y : JSValue), fuel ≤ fuel' →
      deepSanitizeParams parse fuel x schema fieldName = some y →
      deepSanitizeParams parse fuel' x schema fieldName = some y := by
  intro fuel
  induction fuel with
  | zero => intro fuel' x schema fieldName y _ h; exact absurd h (by simp [deepSanitizeParams])
  | succ k ih =>
      intro fuel' x schema fieldName y hle h
      cases fuel' with
      | zero => omega
      | succ k' =>
          have hk : k ≤ k' := by omega
          cases x with
          | null => exact h
          | undefined => exact h
          | num n => exact h
          | bool b => exact h
          | str s =>
              simp only [deepSanitizeParams] at h ⊢
              split_ifs at h ⊢
              all_goals first
              | exact h
              | (cases hp : parse s with
                 | none => rw [hp] at h; exact h
                 | some parsed =>
                     rw [hp] at h
                     exact ih k' parsed schema fieldName y hk h)
          | arr items =>
              simp only [deepSanitizeParams, Option.map_eq_some'] at h
              obtain ⟨ys, hys, rfl⟩ := h
              simp only [deepSanitizeParams, Option.map_eq_some']
              refine ⟨ys, ?_, rfl⟩
              exact optMapM_mono
                (fun a _ b hb => ih k' a (jsGet schema ("items")) fieldName b hk hb) hys
          | obj fields =>
              simp only [deepSanitizeParams, Option.map_eq_some'] at h
              obtain ⟨ys, hys, rfl⟩ := h
              simp only [deepSanitizeParams, Option.map_eq_some']
              refine ⟨ys, ?_, rfl⟩
              refine optMapM_mono (fun kv _ b hb => ?_) hys
              simp only [Option.map_eq_some'] at hb ⊢
              obtain ⟨v, hv, rfl⟩ := hb
              exact ⟨v, ih k' kv.2 (jsGet (jsGet schema ("properties")) kv.1)
                (some kv.1) v hk hv, rfl⟩

/-- C5: argument normalization (deepSanitizeParams) is idempotent — running it
a second time over its own output, with the same schema and field name, yields
that output unchanged.  The statement holds for every JSON.parse behavior,
every recursion-depth budget, every value and every schema. -/
theorem deepSanitizeParams_idempotent (parse : String → Option JSValue) :
    ∀ (fuel : Nat) (x schema : JSValue) (fieldName : Option String)
      (y : JSValue),
      deepSanitizeParams parse fuel x schema fieldName = some y →
      deepSanitizeParams parse fuel y schema fieldName = some y := by
  intro fuel
  induction fuel with
  | zero =>
      intro x schema fieldName y h
      exact absurd h (by simp [deepSanitizeParams])
  | succ k ih =>
      intro x schema fieldName y h
      have h₀ := h
      cases x with
      | null =>
          simp only [deepSanitizeParams, Option.some.injEq] at h
          subst h; exact h₀
      | undefined =>
          simp only [deepSanitizeParams, Option.some.injEq] at h
          subst h; exact h₀
      | num n =>
          simp only [deepSanitizeParams, Option.some.injEq] at h
          subst h; exact h₀
      | bool b =>
          simp only [deepSanitizeParams, Option.some.injEq] at h
          subst h; exact h₀
      | str s =>
          simp only [deepSanitizeParams] at h
          split_ifs at h
          all_goals first
          | (injection h with hy; subst hy; exact h₀)
          | (cases hp : parse s with
             | none =>
                 rw [hp] at h
                 injection h with hy; subst hy; exact h₀
             | some parsed =>
                 rw [hp] at h
                 exact deepSanitizeParams_mono parse k (k + 1) y schema fieldName
                   y (Nat.le_succ k) (ih parsed schema fieldName y h))
      | arr items =>
          simp only [deepSanitizeParams, Option.map_eq_some'] at h
          obtain ⟨ys, hys, rfl⟩ := h
          simp only [deepSanitizeParams, Option.map_eq_some']
          refine ⟨ys, ?_, rfl⟩
          exact optMapM_fix
            (fun a _ b hb => ih a (jsGet schema ("items")) fieldName b hb) hys
      | obj fields =>
          simp only [deepSanitizeParams, Option.map_eq_some'] at h
          obtain ⟨ys, hys, rfl⟩ := h
          simp only [deepSanitizeParams, Option.map_eq_some']
          refine ⟨ys, ?_, rfl⟩
          refine optMapM_fix (fun kv _ b hb => ?_) hys
          simp only [Option.map_eq_some'] at hb ⊢
          obtain ⟨v, hv, rfl⟩ := hb
          exact ⟨v, ih kv.2 (jsGet (jsGet schema ("properties")) kv.1)
            (some kv.1) v hv, rfl⟩

/-- Witness for C5 at a concrete input: a stringified object under the
field named arguments is parsed once, and a second normalization pass leaves
the result unchanged. -/
theorem deepSanitizeParams_idempotent_witness :
    deepSanitizeParams parseFixed 4
        (.obj [("arguments", .str ("\x7b\"a\": 1\x7d"))]) .undefined none =
      some (.obj [("arguments", .obj [("a", .num 1)])]) ∧
    deepSanitizeParams parseFixed 4
        (.obj [("arguments", .obj [("a", .num 1)])]) .undefined none =
      some (.obj [("arguments", .obj [("a", .num 1)])]) :=
  ⟨rfl, deepSanitizeParams_idempotent parseFixed 4
    (.obj [("arguments", .str ("\x7b\"a\": 1\x7d"))]) .undefined none
    (.obj [("arguments", .obj [("a", .num 1)])]) rfl⟩

/-- C6: when the governing schema node declares type string, normalization
returns the string value unchanged — it is never reparsed — for every string,
every JSON.parse behavior, every field name (including the designated
historically-unreliable field named arguments) and every positive depth
budget. -/
theorem deepSanitizeParams_string_schema_preserved
    (parse : String → Option JSValue) (fuel : Nat) (s : String)
    (schema : JSValue) (fieldName : Option String)
    (hty : typeTagIs schema ("string") = true) :
    deepSanitizeParams parse (fuel + 1) (.str s) schema fieldName =
      some (.str s) := by
  simp only [deepSanitizeParams, hty, if_true]
  split_ifs <;> rfl

/-- Witness for C6 at a concrete input: a string that parses as JSON, sitting
under the unreliable field name, with a schema typed string, is returned
unchanged. -/
theorem deepSanitizeParams_string_schema_preserved_witness :
    typeTagIs (.obj [("type", .str ("string"))]) ("string") = true ∧
    deepSanitizeParams parseFixed 4 (.str ("\x7b\"a\": 1\x7d"))
        (.obj [("type", .str ("string"))]) (some ("arguments")) =
      some (.str ("\x7b\"a\": 1\x7d")) :=
  ⟨rfl, deepSanitizeParams_string_schema_preserved parseFixed 3
    ("\x7b\"a\": 1\x7d") (.obj [("type", .str ("string"))])
    (some ("arguments")) rfl⟩

/-- Failure of the Gemini cleaning pass: either the explicit recursion-depth
budget ran out (a modeling device, see deepSanitizeParams) or the single
raising site in the source was hit — Object.entries(null), reached when a
properties key holds null (typeof null is the string object in JavaScript). -/
inductive GemErr : Type where
  | outOfFuel : GemErr
  | typeError : GemErr
deriving DecidableEq

/-- JavaScript falsiness of a modeled value (used for the guard on line 210 of
schema.ts and the trailing properties fix on line 265). -/
def jsFalsy : JSValue → Bool
  | .null => true
  | .undefined => true
  | .bool b => !b
  | .num n => n = 0
  | .str s => s = ""
  | _ => false

/-- JavaScript typeof v === "object": true for plain objects, arrays and
null. -/
def jsTypeofObject : JSValue → Bool
  | .obj _ => true
  | .arr _ => true
  | .null => true
  | _ => false

/-- In-place association-list update: replaces the value at the first
occurrence of the key, keeping its position, or appends a new pair — the
behavior of a JavaScript object property assignment. -/
def alistSet {α : Type _} : List (String × α) → String → α → List (String × α)
  | [], key, v => [(key, v)]
  | (k, w) :: rest, key, v =>
      if k = key then (key, v) :: rest else (k, w) :: alistSet rest key v

/-- Elementwise traversal under an Except-valued function, keeping order and
stopping at the first error — the behavior of the for-loops in
sanitizeSchemaForGemini, whose bodies can only throw via Object.entries. -/
def exceptMapM {ε α β : Type _} (g : α → Except ε β) :
    List α → Except ε (List β)
  | [] => .ok []
  | a :: rest =>
      match g a, exceptMapM g rest with
      | .ok b, .ok bs => .ok (b :: bs)
      | .error e, _ => .error e
      | _, .error e => .error e

/-- Object.entries of an array: index keys (decimal strings) paired with the
elements, in order. -/
def indexedEntries (items : List JSValue) : List (String × JSValue) :=
  items.enum.map fun p => (toString p.1, p.2)

/-- Keys skipped by the restrictive Gemini pass (schema.ts lines 217-236):
the union constructs and const always, enum on a node whose type is not the
string literal string, and required always.  The schema argument is the whole
object node, needed for the enum check against schema.type. -/
def geminiSkip (schema : JSValue) (key : String) : Bool :=
  key = "oneOf" || key = "anyOf" || key = "allOf" || key = "const" ||
    (key = "enum" && !typeTagIs schema ("string")) || key = "required"

/-- The trailing fix of sanitizeSchemaForGemini (lines 264-267): an object
node whose type is the string literal object and whose properties value is
falsy (in particular absent) gets an empty properties object assigned. -/
def geminiFixProperties : JSValue → JSValue
  | .obj fs =>
      if typeTagIs (.obj fs) ("object") && jsFalsy (jsGet (.obj fs) ("properties"))
      then .obj (alistSet fs ("properties") (.obj []))
      else .obj fs
  | other => other

/-- Embedding of sanitizeSchemaForGemini (src/utils/schema.ts lines 209-270).

Non-objects (including null, caught by the falsiness guard) are returned
unchanged; arrays are mapped elementwise; for an object, each kept entry is
processed in order: a properties value of typeof object has its own entries
sanitized one level down (null raises the Object.entries TypeError, an array
contributes its index-keyed entries), items and additionalProperties values of
typeof object are sanitized as schemas, every other non-null object or array
value is sanitized as a schema, and remaining values are copied unchanged;
finally the properties fix is applied.  Recursion depth is explicit fuel, as
in deepSanitizeParams. -/
def sanitizeSchemaForGemini : Nat → JSValue → Except GemErr JSValue
  | 0, _ => .error .outOfFuel
  | fuel + 1, schema =>
      if jsFalsy schema || !jsTypeofObject schema then .ok schema
      else
        match schema with
        | .arr items =>
            (exceptMapM (fun item => sanitizeSchemaForGemini fuel item)
              items).map .arr
        | .obj fields =>
            let keep := fields.filter fun kv => !geminiSkip (.obj fields) kv.1
            match exceptMapM (fun kv =>
              if kv.1 = "properties" && jsTypeofObject kv.2 then
                match kv.2 with
                | .null => Except.error GemErr.typeError
                | .obj props =>
                    (exceptMapM (fun p =>
                      (sanitizeSchemaForGemini fuel p.2).map fun w => (p.1, w))
                      props).map fun l => (kv.1, JSValue.obj l)
                | .arr elems =>
                    (exceptMapM (fun p =>
                      (sanitizeSchemaForGemini fuel p.2).map fun w => (p.1, w))
                      (indexedEntries elems)).map fun l => (kv.1, JSValue.obj l)
                | _ => Except.error GemErr.typeError
              else if (kv.1 = "items" || kv.1 = "additionalProperties")
                  && jsTypeofObject kv.2 then
                (sanitizeSchemaForGemini fuel kv.2).map fun w => (kv.1, w)
              else
                match kv.2 with
                | .obj o => (sanitizeSchemaForGemini fuel (.obj o)).map
                    fun w => (kv.1, w)
                | .arr a => (sanitizeSchemaForGemini fuel (.arr a)).map
                    fun w => (kv.1, w)
                | other => Except.ok (kv.1, other)) keep with
            | .error e => .error e
            | .ok out => .ok (geminiFixProperties (.obj out))
        | _ => .ok schema

example :
    sanitizeSchemaForGemini 3
      (.obj [("type", .str ("object")),
             ("required", .arr [.str ("a")]),
             ("oneOf", .arr []),
             ("enum", .arr [.num 1])]) =
    .ok (.obj [("type", .str ("object")), ("properties", .obj [])]) := by rfl

example :
    sanitizeSchemaForGemini 3
      (.obj [("type", .str ("string")), ("enum", .arr [.str ("x")])]) =
    .ok (.obj [("type", .str ("string")), ("enum", .arr [.str ("x")])]) := by
  rfl

/-- Named form of the per-entry processing step of the object branch of
sanitizeSchemaForGemini, for stating lemmas about it; definitionally equal to
the inline closure in the definition above. -/
def geminiProcessField (fuel : Nat) (kv : String × JSValue) :
    Except GemErr (String × JSValue) :=
  if kv.1 = "properties" && jsTypeofObject kv.2 then
    match kv.2 with
    | .null => Except.error GemErr.typeError
    | .obj props =>
        (exceptMapM (fun p =>
          (sanitizeSchemaForGemini fuel p.2).map fun w => (p.1, w))
          props).map fun l => (kv.1, JSValue.obj l)
    | .arr elems =>
        (exceptMapM (fun p =>
          (sanitizeSchemaForGemini fuel p.2).map fun w => (p.1, w))
          (indexedEntries elems)).map fun l => (kv.1, JSValue.obj l)
    | _ => Except.error GemErr.typeError
  else if (kv.1 = "items" || kv.1 = "additionalProperties")
      && jsTypeofObject kv.2 then
    (sanitizeSchemaForGemini fuel kv.2).map fun w => (kv.1, w)
  else
    match kv.2 with
    | .obj o => (sanitizeSchemaForGemini fuel (.obj o)).map fun w => (kv.1, w)
    | .arr a => (sanitizeSchemaForGemini fuel (.arr a)).map fun w => (kv.1, w)
    | other => Except.ok (kv.1, other)

lemma sanitizeSchemaForGemini_obj (fuel : Nat)
    (fields : List (String × JSValue)) :
    sanitizeSchemaForGemini (fuel + 1) (.obj fields) =
      match exceptMapM (geminiProcessField fuel)
          (fields.filter fun kv => !geminiSkip (.obj fields) kv.1) with
      | .error e => .error e
      | .ok out => .ok (geminiFixProperties (.obj out)) := rfl

/-- The nodes of a cleaned schema tree: the root; elements of array nodes;
object entry values, where the value of a properties key is not itself a node
but a map whose entry values are nodes. -/
inductive SchemaNode : JSValue → JSValue → Prop where
  | refl (v : JSValue) : SchemaNode v v
  | arrMem {items : List JSValue} {x n : JSValue} :
      x ∈ items → SchemaNode x n → SchemaNode (.arr items) n
  | objField {fields : List (String × JSValue)} {k : String} {x n : JSValue} :
      (k, x) ∈ fields → k ≠ "properties" → SchemaNode x n →
      SchemaNode (.obj fields) n
  | propsMem {fields props : List (String × JSValue)} {pk : String}
      {x n : JSValue} :
      ("properties", .obj props) ∈ fields → (pk, x) ∈ props →
      SchemaNode x n → SchemaNode (.obj fields) n

/-- What the cleaned output promises at each object node: none of the
union/const/required keys, enum only when the node is string-typed, and a
properties key on every object-typed node. -/
def GeminiNodeOk (n : JSValue) : Prop :=
  ∀ fields, n = .obj fields →
    (∀ kv ∈ fields, kv.1 ≠ "oneOf" ∧ kv.1 ≠ "anyOf" ∧ kv.1 ≠ "allOf" ∧
      kv.1 ≠ "const" ∧ kv.1 ≠ "required") ∧
    ((∃ v, ("enum", v) ∈ fields) → typeTagIs (.obj fields) ("string") = true) ∧
    (typeTagIs (.obj fields) ("object") = true →
      ∃ v, ("properties", v) ∈ fields)

lemma schemaNode_atom {v n : JSValue} (h : SchemaNode v n)
    (ha : ∀ items, v ≠ .arr items) (ho : ∀ fs, v ≠ .obj fs) : n = v := by
  cases h with
  | refl => rfl
  | arrMem hx hs => exact absurd rfl (ha _)
  | objField hx hk hs => exact absurd rfl (ho _)
  | propsMem hx hp hs => exact absurd rfl (ho _)

lemma alistGet_some_mem {α : Type _} :
    ∀ {l : List (String × α)} {key : String} {v : α},
      alistGet l key = some v → (key, v) ∈ l := by
  intro l
  induction l with
  | nil => intro key v h; exact absurd h (by simp [alistGet])
  | cons kv rest ih =>
      intro key v h
      obtain ⟨k, w⟩ := kv
      simp only [alistGet] at h
      by_cases hk : k = key
      · rw [if_pos hk] at h
        injection h with h
        subst hk h
        exact List.mem_cons_self _ _
      · rw [if_neg hk] at h
        exact List.mem_cons_of_mem _ (ih h)

lemma mem_alistSet {α : Type _} :
    ∀ {l : List (String × α)} {key : String} {v : α} {kv : String × α},
      kv ∈ alistSet l key v → kv ∈ l ∨ kv = (key, v) := by
  intro l
  induction l with
  | nil =>
      intro key v kv h
      simp only [alistSet, List.mem_singleton] at h
      exact Or.inr h
  | cons a rest ih =>
      intro key v kv h
      obtain ⟨k, w⟩ := a
      simp only [alistSet] at h
      by_cases hk : k = key
      · rw [if_pos hk] at h
        rcases List.mem_cons.mp h with h | h
        · exact Or.inr h
        · exact Or.inl (List.mem_cons_of_mem _ h)
      · rw [if_neg hk] at h
        rcases List.mem_cons.mp h with h | h
        · exact Or.inl (h ▸ List.mem_cons_self _ _)
        · rcases ih h with h | h
          · exact Or.inl (List.mem_cons_of_mem _ h)
          · exact Or.inr h

lemma alistSet_self_mem {α : Type _} :
    ∀ (l : List (String × α)) (key : String) (v : α),
      (key, v) ∈ alistSet l key v := by
  intro l
  induction l with
  | nil => intro key v; simp [alistSet]
  | cons a rest ih =>
      intro key v
      obtain ⟨k, w⟩ := a
      simp only [alistSet]
      by_cases hk : k = key
      · rw [if_pos hk]; exact List.mem_cons_self _ _
      · rw [if_neg hk]; exact List.mem_cons_of_mem _ (ih key v)

lemma alistGet_alistSet_ne {α : Type _} :
    ∀ {l : List (String × α)} {key key₂ : String} {v : α}, key₂ ≠ key →
      alistGet (alistSet l key v) key₂ = alistGet l key₂ := by
  intro l
  induction l with
  | nil =>
      intro key key₂ v hne
      simp only [alistSet, alistGet]
      rw [if_neg (fun h => hne h.symm)]
  | cons a rest ih =>
      intro key key₂ v hne
      obtain ⟨k, w⟩ := a
      simp only [alistSet]
      by_cases hk : k = key
      · rw [if_pos hk]
        simp only [alistGet]
        rw [if_neg (fun h => hne h.symm),
          if_neg (fun h => hne (h.symm.trans hk))]
      · rw [if_neg hk]
        simp only [alistGet]
        by_cases hk₂ : k = key₂
        · rw [if_pos hk₂, if_pos hk₂]
        · rw [if_neg hk₂, if_neg hk₂]
          exact ih hne

lemma alistGet_filter {α : Type _} {p : String × α → Bool} :
    ∀ {l : List (String × α)} {key : String},
      (∀ kv : String × α, kv.1 = key → p kv = true) →
      alistGet (l.filter p) key = alistGet l key := by
  intro l
  induction l with
  | nil => intro key _; rfl
  | cons a rest ih =>
      intro key hp
      obtain ⟨k, w⟩ := a
      by_cases hk : k = key
      · rw [List.filter_cons_of_pos (hp (k, w) hk)]
        simp only [alistGet, if_pos hk]
      · cases hpa : p (k, w) with
        | true =>
            rw [List.filter_cons_of_pos hpa]
            simp only [alistGet, if_neg hk]
            exact ih hp
        | false =>
            rw [List.filter_cons_of_neg (by simp [hpa])]
            simp only [alistGet, if_neg hk]
            exact ih hp

lemma exceptMapM_mem {ε α β : Type _} {g : α → Except ε β} :
    ∀ {l : List α} {out : List β}, exceptMapM g l = .ok out →
      ∀ {b : β}, b ∈ out → ∃ a ∈ l, g a = .ok b := by
  intro l
  induction l with
  | nil =>
      intro out h b hb
      simp only [exceptMapM] at h
      injection h with h
      subst h
      exact absurd hb (by simp)
  | cons a rest ih =>
      intro out h b hb
      simp only [exceptMapM] at h
      cases hga : g a with
      | error e => rw [hga] at h; exact absurd h (by simp)
      | ok b₀ =>
          rw [hga] at h
          cases hrest : exceptMapM g rest with
          | error e => rw [hrest] at h; exact absurd h (by simp)
          | ok bs =>
              rw [hrest] at h
              injection h with h
              subst h
              rcases List.mem_cons.mp hb with hb | hb
              · exact ⟨a, List.mem_cons_self _ _, hb ▸ hga⟩
              · obtain ⟨a₂, ha₂, hg₂⟩ := ih hrest hb
                exact ⟨a₂, List.mem_cons_of_mem _ ha₂, hg₂⟩

lemma exceptMap_eq_ok {ε α β : Type _} {f : α → β} {e : Except ε α} {b : β} :
    e.map f = .ok b ↔ ∃ a, e = .ok a ∧ f a = b := by
  cases e <;> simp [Except.map]

lemma exceptMapM_alistGet {ε α : Type _}
    {g : (String × α) → Except ε (String × α)}
    (hkey : ∀ a b, g a = .ok b → b.1 = a.1) :
    ∀ {l out : List (String × α)}, exceptMapM g l = .ok out →
      ∀ key : String,
        (alistGet l key = none → alistGet out key = none) ∧
        (∀ v, alistGet l key = some v →
          ∃ w, g (key, v) = .ok (key, w) ∧ alistGet out key = some w) := by
  intro l
  induction l with
  | nil =>
      intro out h key
      simp only [exceptMapM] at h
      injection h with h
      subst h
      exact ⟨fun _ => rfl, fun v hv => absurd hv (by simp [alistGet])⟩
  | cons a rest ih =>
      intro out h key
      obtain ⟨ak, av⟩ := a
      simp only [exceptMapM] at h
      cases hga : g (ak, av) with
      | error e => rw [hga] at h; exact absurd h (by simp)
      | ok b =>
          rw [hga] at h
          cases hrest : exceptMapM g rest with
          | error e => rw [hrest] at h; exact absurd h (by simp)
          | ok bs =>
              rw [hrest] at h
              injection h with h
              subst h
              obtain ⟨bk, bv⟩ := b
              have hb1 : bk = ak := hkey (ak, av) (bk, bv) hga
              subst hb1
              by_cases hak : bk = key
              · subst hak
                refine ⟨fun hnone => ?_, fun v hv => ?_⟩
                · exact absurd hnone (by simp [alistGet])
                · simp only [alistGet, if_pos rfl] at hv ⊢
                  injection hv with hv
                  subst hv
                  exact ⟨bv, hga, rfl⟩
              · simp only [alistGet, if_neg hak]
                exact ih hrest key

lemma typeTagIs_iff {s : JSValue} {tag : String} :
    typeTagIs s tag = true ↔ jsGet s ("type") = .str tag := by
  unfold typeTagIs
  cases jsGet s ("type") <;> simp

lemma jsGet_obj (l : List (String × JSValue)) (key : String) :
    jsGet (.obj l) key =
      match alistGet l key with
      | some x => x
      | none => .undefined := rfl

lemma geminiSkip_false {s : JSValue} {key : String}
    (h : geminiSkip s key = false) :
    key ≠ "oneOf" ∧ key ≠ "anyOf" ∧ key ≠ "allOf" ∧ key ≠ "const" ∧
    key ≠ "required" ∧ (key = "enum" → typeTagIs s ("string") = true) := by
  simp only [geminiSkip, Bool.or_eq_false_iff, Bool.and_eq_false_iff,
    decide_eq_false_iff_not, Bool.not_eq_false] at h
  obtain ⟨⟨⟨⟨h₁, h₂⟩, h₃⟩, h₄⟩, h₅⟩ := h
  refine ⟨h₁.1, h₁.2, h₂, h₃, h₅, fun he => ?_⟩
  rcases h₄ with h₄ | h₄
  · exact absurd he h₄
  · simpa using h₄

lemma geminiProcessField_key {fuel : Nat} {kv b : String × JSValue}
    (h : geminiProcessField fuel kv = .ok b) : b.1 = kv.1 := by
  obtain ⟨k, v⟩ := kv
  unfold geminiProcessField at h
  split_ifs at h with h₁ h₂
  · cases v with
    | null => exact absurd h (by simp)
    | obj props =>
        rw [exceptMap_eq_ok] at h
        obtain ⟨l, _, hl⟩ := h
        rw [← hl]
    | arr elems =>
        rw [exceptMap_eq_ok] at h
        obtain ⟨l, _, hl⟩ := h
        rw [← hl]
    | undefined => exact absurd h (by simp)
    | bool b₂ => exact absurd h (by simp)
    | num n₂ => exact absurd h (by simp)
    | str s₂ => exact absurd h (by simp)
  · rw [exceptMap_eq_ok] at h
    obtain ⟨w, _, hw⟩ := h
    rw [← hw]
  · cases v with
    | obj o =>
        rw [exceptMap_eq_ok] at h
        obtain ⟨w, _, hw⟩ := h
        rw [← hw]
    | arr a =>
        rw [exceptMap_eq_ok] at h
        obtain ⟨w, _, hw⟩ := h
        rw [← hw]
    | null => injection h with h; rw [← h]
    | undefined => injection h with h; rw [← h]
    | bool b₂ => injection h with h; rw [← h]
    | num n₂ => injection h with h; rw [← h]
    | str s₂ => injection h with h; rw [← h]

lemma geminiNodeOk_of_atom {v n : JSValue} (hn : SchemaNode v n)
    (ha : ∀ items, v ≠ .arr items) (ho : ∀ fs, v ≠ .obj fs) :
    GeminiNodeOk n := by
  have hv := schemaNode_atom hn ha ho
  subst hv
  intro fields hf
  exact absurd hf (ho fields)

lemma sanitizeSchemaForGemini_arr (fuel : Nat) (items : List JSValue) :
    sanitizeSchemaForGemini (fuel + 1) (.arr items) =
      (exceptMapM (fun item => sanitizeSchemaForGemini fuel item)
        items).map .arr := rfl

lemma geminiSkip_type (s : JSValue) : geminiSkip s ("type") = false := rfl

lemma geminiProcessField_type (fuel : Nat) (tag : String) :
    geminiProcessField fuel ("type", .str tag) = .ok ("type", .str tag) := rfl

/-- If the original object node is typed tag, the processed entry list still
has its first type entry equal to the string tag: the filter never drops type
entries and the per-entry processing copies string values unchanged. -/
lemma geminiType_propagates {k : Nat} {fields out : List (String × JSValue)}
    (hout : exceptMapM (geminiProcessField k)
      (fields.filter fun kv => !geminiSkip (.obj fields) kv.1) = .ok out)
    {tag : String} (hty : typeTagIs (.obj fields) tag = true) :
    alistGet out ("type") = some (.str tag) := by
  have hty₀ : jsGet (.obj fields) ("type") = .str tag := typeTagIs_iff.mp hty
  have htyget : alistGet fields ("type") = some (.str tag) := by
    rw [jsGet_obj] at hty₀
    cases hpv : alistGet fields ("type") with
    | none => rw [hpv] at hty₀; exact absurd hty₀ (by simp)
    | some v₂ => rw [hpv] at hty₀; exact congrArg some hty₀
  have htykeep :
      alistGet (fields.filter fun kv => !geminiSkip (.obj fields) kv.1)
        ("type") = some (.str tag) := by
    rw [alistGet_filter, htyget]
    intro kv hkv1
    rw [hkv1, geminiSkip_type]
    rfl
  obtain ⟨w, hgw, houtty⟩ :=
    (exceptMapM_alistGet (fun a b => geminiProcessField_key) hout
      ("type")).2 _ htykeep
  rw [geminiProcessField_type] at hgw
  injection hgw with hgw
  have hw : w = .str tag := (congrArg Prod.snd hgw).symm
  rw [houtty, hw]

/-- C9: every cleaning pass that completes produces a tree in which no schema
node carries a oneOf, anyOf, allOf, const or required key, enum keys appear
only on nodes whose type is the string literal string, and every node typed
object carries a properties key. -/
theorem sanitizeSchemaForGemini_invariants :
    ∀ (fuel : Nat) (schema r : JSValue),
      sanitizeSchemaForGemini fuel schema = .ok r →
      ∀ n, SchemaNode r n → GeminiNodeOk n := by
  intro fuel
  induction fuel with
  | zero =>
      intro schema r h
      exact absurd h (by simp [sanitizeSchemaForGemini])
  | succ k ih =>
      intro schema r h n hn
      cases schema with
      | undefined =>
          have h' : Except.ok (ε := GemErr) JSValue.undefined = .ok r := h
          injection h' with h'
          subst h'
          exact geminiNodeOk_of_atom hn (by intro l; simp) (by intro l; simp)
      | null =>
          have h' : Except.ok (ε := GemErr) JSValue.null = .ok r := h
          injection h' with h'
          subst h'
          exact geminiNodeOk_of_atom hn (by intro l; simp) (by intro l; simp)
      | bool b =>
          cases b with
          | false =>
              have h' : Except.ok (ε := GemErr) (JSValue.bool false) = .ok r := h
              injection h' with h'
              subst h'
              exact geminiNodeOk_of_atom hn (by intro l; simp) (by intro l; simp)
          | true =>
              have h' : Except.ok (ε := GemErr) (JSValue.bool true) = .ok r := h
              injection h' with h'
              subst h'
              exact geminiNodeOk_of_atom hn (by intro l; simp) (by intro l; simp)
      | num m =>
          have hg : sanitizeSchemaForGemini (k + 1) (.num m) = .ok (.num m) := by
            simp only [sanitizeSchemaForGemini]
            rw [if_pos (by simp [jsFalsy, jsTypeofObject])]
          rw [hg] at h
          injection h with h
          subst h
          exact geminiNodeOk_of_atom hn (by intro l; simp) (by intro l; simp)
      | str s =>
          have hg : sanitizeSchemaForGemini (k + 1) (.str s) = .ok (.str s) := by
            simp only [sanitizeSchemaForGemini]
            rw [if_pos (by simp [jsFalsy, jsTypeofObject])]
          rw [hg] at h
          injection h with h
          subst h
          exact geminiNodeOk_of_atom hn (by intro l; simp) (by intro l; simp)
      | arr items =>
          rw [sanitizeSchemaForGemini_arr, exceptMap_eq_ok] at h
          obtain ⟨out, hout, hr⟩ := h
          subst hr
          cases hn with
          | refl => intro fields hf; exact absurd hf (by simp)
          | arrMem hx hs =>
              obtain ⟨a, _, hga⟩ := exceptMapM_mem hout hx
              exact ih a _ hga n hs
      | obj fields =>
          rw [sanitizeSchemaForGemini_obj] at h
          cases hout : exceptMapM (geminiProcessField k)
              (fields.filter fun kv => !geminiSkip (.obj fields) kv.1) with
          | error e => rw [hout] at h; exact absurd h (by simp)
          | ok out =>
              rw [hout] at h
              injection h with h
              obtain ⟨fsr, hr, hmem_fsr, htype_fsr, hprops_fsr⟩ :
                  ∃ fsr, r = .obj fsr ∧
                    (∀ kv, kv ∈ fsr →
                      kv ∈ out ∨ kv = ("properties", JSValue.obj [])) ∧
                    alistGet fsr ("type") = alistGet out ("type") ∧
                    (typeTagIs (.obj fsr) ("object") = true →
                      ∃ v, ("properties", v) ∈ fsr) := by
                cases hfix : (typeTagIs (.obj out) ("object") &&
                    jsFalsy (jsGet (.obj out) ("properties"))) with
                | true =>
                    refine ⟨alistSet out ("properties") (.obj []), ?_,
                      fun kv hkv => mem_alistSet hkv,
                      alistGet_alistSet_ne (by decide), fun _ =>
                      ⟨.obj [], alistSet_self_mem out _ _⟩⟩
                    rw [← h]
                    simp [geminiFixProperties, hfix]
                | false =>
                    refine ⟨out, ?_, fun kv hkv => Or.inl hkv, rfl, ?_⟩
                    · rw [← h]
                      simp [geminiFixProperties, hfix]
                    · intro hty
                      have hfal :
                          jsFalsy (jsGet (.obj out) ("properties")) = false := by
                        cases hjf : jsFalsy (jsGet (.obj out) ("properties")) with
                        | false => rfl
                        | true =>
                            rw [hty, hjf] at hfix
                            exact absurd hfix (by simp)
                      cases hpv : alistGet out ("properties") with
                      | none =>
                          rw [jsGet_obj, hpv] at hfal
                          exact absurd hfal (by simp [jsFalsy])
                      | some v => exact ⟨v, alistGet_some_mem hpv⟩
              subst hr
              cases hn with
              | refl =>
                  intro fields₂ hf
                  injection hf with hf
                  subst hf
                  refine ⟨?_, ?_, hprops_fsr⟩
                  · intro kv hkv
                    rcases hmem_fsr kv hkv with hkv | hkv
                    · obtain ⟨a, ha, hpa⟩ := exceptMapM_mem hout hkv
                      have hk := geminiProcessField_key hpa
                      have hfil := List.mem_filter.mp ha
                      have hskip : geminiSkip (.obj fields) a.1 = false := by
                        simpa using hfil.2
                      obtain ⟨h₁, h₂, h₃, h₄, h₅, _⟩ := geminiSkip_false hskip
                      rw [hk]
                      exact ⟨h₁, h₂, h₃, h₄, h₅⟩
                    · rw [hkv]
                      exact ⟨by decide, by decide, by decide, by decide,
                        by decide⟩
                  · rintro ⟨v, hv⟩
                    rcases hmem_fsr ("enum", v) hv with hv₂ | hv₂
                    swap
                    · exact absurd hv₂ (by simp)
                    obtain ⟨a, ha, hpa⟩ := exceptMapM_mem hout hv₂
                    have hk := geminiProcessField_key hpa
                    have hfil := List.mem_filter.mp ha
                    have hskip : geminiSkip (.obj fields) a.1 = false := by
                      simpa using hfil.2
                    obtain ⟨_, _, _, _, _, henum⟩ := geminiSkip_false hskip
                    have hstr : typeTagIs (.obj fields) ("string") = true :=
                      henum hk.symm
                    have houtty := geminiType_propagates hout hstr
                    rw [typeTagIs_iff, jsGet_obj, htype_fsr, houtty]
              | @objField _ k₀ x _ hkv hne hs =>
                  rcases hmem_fsr _ hkv with hkv₂ | hkv₂
                  · obtain ⟨⟨ak, av⟩, ha, hpa⟩ := exceptMapM_mem hout hkv₂
                    have hk : k₀ = ak := geminiProcessField_key hpa
                    unfold geminiProcessField at hpa
                    split_ifs at hpa with h₁ h₂
                    · have hak : ak = "properties" := by
                        simp only [Bool.and_eq_true, decide_eq_true_eq] at h₁
                        exact h₁.1
                      exact absurd (hk.trans hak) hne
                    · rw [exceptMap_eq_ok] at hpa
                      obtain ⟨w, hw, hww⟩ := hpa
                      injection hww with hww₁ hww₂
                      subst hww₂
                      exact ih av _ hw n hs
                    · cases av with
                      | obj o =>
                          rw [exceptMap_eq_ok] at hpa
                          obtain ⟨w, hw, hww⟩ := hpa
                          injection hww with hww₁ hww₂
                          subst hww₂
                          exact ih (.obj o) _ hw n hs
                      | arr a₂ =>
                          rw [exceptMap_eq_ok] at hpa
                          obtain ⟨w, hw, hww⟩ := hpa
                          injection hww with hww₁ hww₂
                          subst hww₂
                          exact ih (.arr a₂) _ hw n hs
                      | null =>
                          injection hpa with hpa
                          injection hpa with hpa₁ hpa₂
                          subst hpa₂
                          exact geminiNodeOk_of_atom hs
                            (by intro l; simp) (by intro l; simp)
                      | undefined =>
                          injection hpa with hpa
                          injection hpa with hpa₁ hpa₂
                          subst hpa₂
                          exact geminiNodeOk_of_atom hs
                            (by intro l; simp) (by intro l; simp)
                      | bool b₂ =>
                          injection hpa with hpa
                          injection hpa with hpa₁ hpa₂
                          subst hpa₂
                          exact geminiNodeOk_of_atom hs
                            (by intro l; simp) (by intro l; simp)
                      | num n₂ =>
                          injection hpa with hpa
                          injection hpa with hpa₁ hpa₂
                          subst hpa₂
                          exact geminiNodeOk_of_atom hs
                            (by intro l; simp) (by intro l; simp)
                      | str s₂ =>
                          injection hpa with hpa
                          injection hpa with hpa₁ hpa₂
                          subst hpa₂
                          exact geminiNodeOk_of_atom hs
                            (by intro l; simp) (by intro l; simp)
                  · injection hkv₂ with hkv₂ _
                    exact absurd hkv₂ hne
              | @propsMem _ props pk x _ hpv hin hs =>
                  rcases hmem_fsr _ hpv with hpv₂ | hpv₂
                  · obtain ⟨⟨ak, av⟩, ha, hpa⟩ := exceptMapM_mem hout hpv₂
                    have hk : ("properties" : String) = ak :=
                      geminiProcessField_key hpa
                    unfold geminiProcessField at hpa
                    split_ifs at hpa with h₁ h₂
                    · cases av with
                      | null => exact absurd hpa (by simp)
                      | obj ps₂ =>
                          rw [exceptMap_eq_ok] at hpa
                          obtain ⟨l, hl, hll⟩ := hpa
                          injection hll with hll₁ hll₂
                          injection hll₂ with hll₂
                          subst hll₂
                          obtain ⟨p, hp, hgp⟩ := exceptMapM_mem hl hin
                          rw [exceptMap_eq_ok] at hgp
                          obtain ⟨w, hw, hww⟩ := hgp
                          injection hww with hww₁ hww₂
                          subst hww₂
                          exact ih p.2 _ hw n hs
                      | arr elems =>
                          rw [exceptMap_eq_ok] at hpa
                          obtain ⟨l, hl, hll⟩ := hpa
                          injection hll with hll₁ hll₂
                          injection hll₂ with hll₂
                          subst hll₂
                          obtain ⟨p, hp, hgp⟩ := exceptMapM_mem hl hin
                          rw [exceptMap_eq_ok] at hgp
                          obtain ⟨w, hw, hww⟩ := hgp
                          injection hww with hww₁ hww₂
                          subst hww₂
                          exact ih p.2 _ hw n hs
                      | undefined => simp [jsTypeofObject] at h₁
                      | bool b₂ => simp [jsTypeofObject] at h₁
                      | num n₂ => simp [jsTypeofObject] at h₁
                      | str s₂ => simp [jsTypeofObject] at h₁
                    · rw [← hk] at h₂
                      simp at h₂
                    · cases av with
                      | obj o =>
                          rw [← hk] at h₁
                          simp [jsTypeofObject] at h₁
                      | arr a₂ =>
                          rw [← hk] at h₁
                          simp [jsTypeofObject] at h₁
                      | null =>
                          injection hpa with hpa
                          injection hpa with hpa₁ hpa₂
                          exact absurd hpa₂ (by simp)
                      | undefined =>
                          injection hpa with hpa
                          injection hpa with hpa₁ hpa₂
                          exact absurd hpa₂ (by simp)
                      | bool b₂ =>
                          injection hpa with hpa
                          injection hpa with hpa₁ hpa₂
                          exact absurd hpa₂ (by simp)
                      | num n₂ =>
                          injection hpa with hpa
                          injection hpa with hpa₁ hpa₂
                          exact absurd hpa₂ (by simp)
                      | str s₂ =>
                          injection hpa with hpa
                          injection hpa with hpa₁ hpa₂
                          exact absurd hpa₂ (by simp)
                  · injection hpv₂ with hpv₂₁ hpv₂₂
                    injection hpv₂₂ with hpv₂₂
                    rw [hpv₂₂] at hin
                    exact absurd hin (by simp)


/-- Witness for C9 at a concrete schema: union/const/required keys are
stripped, the enum on the integer-typed inner node is dropped, and the
resulting tree satisfies the node invariants. -/
theorem sanitizeSchemaForGemini_invariants_witness :
    sanitizeSchemaForGemini 4
        (.obj [("type", .str ("object")), ("oneOf", .arr []),
          ("required", .arr [.str ("a")]),
          ("properties", .obj [("a", .obj [("type", .str ("integer")),
            ("enum", .arr [.num 1]), ("const", .num 2)])])]) =
      .ok (.obj [("type", .str ("object")),
        ("properties", .obj [("a", .obj [("type", .str ("integer"))])])]) ∧
    GeminiNodeOk (.obj [("type", .str ("object")),
      ("properties", .obj [("a", .obj [("type", .str ("integer"))])])]) :=
  ⟨rfl, sanitizeSchemaForGemini_invariants 4
    (.obj [("type", .str ("object")), ("oneOf", .arr []),
      ("required", .arr [.str ("a")]),
      ("properties", .obj [("a", .obj [("type", .str ("integer")),
        ("enum", .arr [.num 1]), ("const", .num 2)])])])
    (.obj [("type", .str ("object")),
      ("properties", .obj [("a", .obj [("type", .str ("integer"))])])])
    rfl
    (.obj [("type", .str ("object")),
      ("properties", .obj [("a", .obj [("type", .str ("integer"))])])])
    (SchemaNode.refl _)⟩

/-- Outcome record of the session lifecycle operations (mcp/types.ts
MCPResult; the unused data field is omitted). -/
structure MCPResult where
  success : Bool
  error : Option String
deriving DecidableEq

/-- One element of a tool result content array (mcp/types.ts MCPToolResult).
Only the fields the embedded code reads are modeled. -/
structure MCPContentPart where
  ptype : String
  text : Option String
  data : Option JSValue

/-- A tool call result: content is none when absent or not an array; isError
is optional as in the source; savedImages is added by image post-processing. -/
structure MCPToolResult where
  content : Option (List MCPContentPart)
  isError : Option Bool
  savedImages : Option (List String)

/-- Removes every entry under the key.  Registry states reachable through the
operations have unique keys (the source uses a JavaScript Map), for which this
coincides with Map.delete. -/
def alistDelete {α : Type _} (l : List (String × α)) (key : String) :
    List (String × α) :=
  l.filter fun kv => !(kv.1 = key : Bool)

/-- State of the MCPClient session registry: the keyed connection map plus a
log of the close calls issued to the transport factory (closeCalls) and of
those that completed without throwing (closedOk).  Connection handles are
opaque numbers supplied by the transport factory. -/
structure MCPClientState where
  sessions : List (String × Nat)
  closeCalls : List Nat
  closedOk : List Nat
deriving DecidableEq

/-- Embedding of MCPClient.destroySession (MCPClient.ts lines 156-171).
closeErr is the behavior of transportFactory.closeTransport for this call:
none resolves, some msg rejects with message msg.  Note the source deletes
the map entry only after the awaited close succeeds; a close rejection jumps
to the catch block with the entry still registered. -/
def destroySession (st : MCPClientState) (sessionId : String)
    (closeErr : Option String) : MCPClientState × MCPResult :=
  match alistGet st.sessions sessionId with
  | none => (st, ⟨true, none⟩)
  | some h =>
      match closeErr with
      | none =>
          ({ st with
              closeCalls := st.closeCalls ++ [h],
              closedOk := st.closedOk ++ [h],
              sessions := alistDelete st.sessions sessionId }, ⟨true, none⟩)
      | some msg =>
          ({ st with closeCalls := st.closeCalls ++ [h] }, ⟨false, some msg⟩)

/-- Embedding of MCPClient.createSession (MCPClient.ts lines 40-69): tear down
any prior session under the key (its outcome is ignored), then ask the
transport factory for a new connection; on success store it under the key, on
rejection report the failure without storing. -/
def createSession (st : MCPClientState) (sessionId : String)
    (closeErr : Option String) (transport : Except String Nat) :
    MCPClientState × MCPResult :=
  let tear := destroySession st sessionId closeErr
  match transport with
  | .ok h =>
      ({ tear.1 with sessions := alistSet tear.1.sessions sessionId h },
        ⟨true, none⟩)
  | .error msg => (tear.1, ⟨false, some msg⟩)

/-- Embedding of MCPClient.hasSession (MCPClient.ts lines 206-208). -/
def hasSession (st : MCPClientState) (sessionId : String) : Bool :=
  (alistGet st.sessions sessionId).isSome

/-- Return shape of getSessionInfo.  The source field named exists is a Lean
keyword and is rendered sessionExists. -/
structure SessionInfo where
  sessionExists : Bool
  isConnected : Option Bool
deriving DecidableEq

/-- Embedding of MCPClient.getSessionInfo (MCPClient.ts lines 191-201): a pure
read of the registry — the state is consumed, never produced. -/
def getSessionInfo (st : MCPClientState) (sessionId : String) : SessionInfo :=
  match alistGet st.sessions sessionId with
  | none => ⟨false, none⟩
  | some _ => ⟨true, some true⟩

/-- Behavior of the external collaborators consulted by one callTool
invocation: the connection call itself, whether an image handler and a user-id
getter were configured, the user id returned, and the outcomes of the image
handler's initialize and processToolResult calls (error models a rejection). -/
structure CallToolEnv where
  clientResult : Except String MCPToolResult
  imageHandlerConfigured : Bool
  getUserIdConfigured : Bool
  currentUserId : Option String
  initResult : Except String Unit
  processResult : Except String (List MCPContentPart × Option (List String))

/-- JavaScript truthiness of the optional data field of a content part. -/
def partDataTruthy (p : MCPContentPart) : Bool :=
  match p.data with
  | some d => !jsFalsy d
  | none => false

/-- The some-predicate of MCPClient.callTool lines 131-133: a part typed
image with truthy data. -/
def hasImages (content : List MCPContentPart) : Bool :=
  content.any fun p => (p.ptype = "image" : Bool) && partDataTruthy p

/-- Embedding of MCPClient.callTool (MCPClient.ts lines 108-151).  A missing
session throws; the connection call outcome is env.clientResult; when an image
handler and user-id getter are configured, the content is an array containing
image parts, and a user id is available, initialize and processToolResult run
with no try/catch around them — their rejections propagate out of callTool. -/
def callTool (st : MCPClientState) (sessionId toolName : String)
    (args : JSValue) (env : CallToolEnv) : Except String MCPToolResult :=
  match alistGet st.sessions sessionId with
  | none => .error ("No MCP client found for session: " ++ sessionId)
  | some _ =>
      match env.clientResult with
      | .error e => .error e
      | .ok result =>
          match result.content with
          | none => .ok result
          | some content =>
              if env.imageHandlerConfigured && env.getUserIdConfigured then
                if hasImages content then
                  match env.currentUserId with
                  | some _ =>
                      match env.initResult with
                      | .error e => .error e
                      | .ok _ =>
                          match env.processResult with
                          | .error e => .error e
                          | .ok processed =>
                              .ok { result with
                                content := some processed.1,
                                savedImages := processed.2 }
                  | none => .ok result
                else .ok result
              else .ok result

/-- Number of registry entries under a key. -/
def countKey {α : Type _} (l : List (String × α)) (key : String) : Nat :=
  (l.filter fun kv => (kv.1 = key : Bool)).length

lemma alistGet_alistDelete_self {α : Type _} :
    ∀ (l : List (String × α)) (key : String),
      alistGet (alistDelete l key) key = none := by
  intro l
  induction l with
  | nil => intro key; rfl
  | cons a rest ih =>
      intro key
      obtain ⟨k, w⟩ := a
      by_cases hk : k = key
      · simp only [alistDelete, List.filter_cons]
        rw [if_neg (by simp [hk])]
        exact ih key
      · simp only [alistDelete, List.filter_cons]
        rw [if_pos (by simp [hk])]
        simp only [alistGet, if_neg hk]
        exact ih key

lemma alistGet_alistSet_self {α : Type _} :
    ∀ (l : List (String × α)) (key : String) (v : α),
      alistGet (alistSet l key v) key = some v := by
  intro l
  induction l with
  | nil => intro key v; simp [alistSet, alistGet]
  | cons a rest ih =>
      intro key v
      obtain ⟨k, w⟩ := a
      simp only [alistSet]
      by_cases hk : k = key
      · rw [if_pos hk]; simp [alistGet]
      · rw [if_neg hk]
        simp only [alistGet, if_neg hk]
        exact ih key v

lemma countKey_alistDelete {α : Type _} (l : List (String × α)) (key : String) :
    countKey (alistDelete l key) key = 0 := by
  induction l with
  | nil => rfl
  | cons a rest ih =>
      obtain ⟨k, w⟩ := a
      by_cases hk : k = key
      · simp only [alistDelete, List.filter_cons] at ih ⊢
        rw [if_neg (by simp [hk])]
        exact ih
      · simp only [alistDelete, List.filter_cons] at ih ⊢
        rw [if_pos (by simp [hk])]
        simp only [countKey, List.filter_cons]
        rw [if_neg (by simp [hk])]
        exact ih

lemma countKey_alistSet {α : Type _} :
    ∀ (l : List (String × α)) (key : String) (v : α),
      countKey l key ≤ 1 → countKey (alistSet l key v) key = 1 := by
  intro l
  induction l with
  | nil => intro key v _; simp [alistSet, countKey]
  | cons a rest ih =>
      intro key v hle
      obtain ⟨k, w⟩ := a
      simp only [alistSet]
      by_cases hk : k = key
      · subst hk
        rw [if_pos rfl]
        have hfilter : ∀ (w₂ : α), countKey ((k, w₂) :: rest) k =
            (rest.filter fun kv => (kv.1 = k : Bool)).length + 1 := by
          intro w₂
          simp [countKey, List.filter_cons]
        rw [hfilter v]
        rw [hfilter w] at hle
        omega
      · rw [if_neg hk]
        simp only [countKey, List.filter_cons] at hle ⊢
        rw [if_neg (by simp [hk])] at hle ⊢
        exact ih key v hle

lemma countKey_destroy_le (st : MCPClientState) (sessionId : String)
    (closeErr : Option String)
    (hle : countKey st.sessions sessionId ≤ 1) :
    countKey (destroySession st sessionId closeErr).1.sessions sessionId ≤ 1 := by
  unfold destroySession
  cases hget : alistGet st.sessions sessionId with
  | none => exact hle
  | some h₀ =>
      cases closeErr with
      | none => simp [countKey_alistDelete]
      | some msg => exact hle

lemma destroySession_sessions_fail (st : MCPClientState) (sessionId : String)
    (m : String) :
    (destroySession st sessionId (some m)).1.sessions = st.sessions := by
  unfold destroySession
  cases hget : alistGet st.sessions sessionId <;> rfl

lemma destroySession_get_ok (st : MCPClientState) (sessionId : String) :
    alistGet (destroySession st sessionId none).1.sessions sessionId =
      none := by
  unfold destroySession
  cases hget : alistGet st.sessions sessionId with
  | none => exact hget
  | some h₀ => exact alistGet_alistDelete_self _ _

lemma destroySession_closeCalls (st : MCPClientState) (sessionId : String)
    (closeErr : Option String) (h₀ : Nat)
    (hget : alistGet st.sessions sessionId = some h₀) :
    (destroySession st sessionId closeErr).1.closeCalls =
      st.closeCalls ++ [h₀] := by
  unfold destroySession
  rw [hget]
  cases closeErr <;> rfl

lemma destroySession_closedOk (st : MCPClientState) (sessionId : String)
    (h₀ : Nat) (hget : alistGet st.sessions sessionId = some h₀) :
    (destroySession st sessionId none).1.closedOk = st.closedOk ++ [h₀] := by
  unfold destroySession
  rw [hget]

/-- C2 counterexample: with one session registered under the key and a close
that fails, destroySession reports the failure but leaves the entry
registered — a subsequent exists check still returns true, contrary to the
claim that the entry is always removed. -/
theorem destroySession_close_failure_cex :
    (destroySession ⟨[("k", 0)], [], []⟩ ("k") (some ("boom"))).2 =
      ⟨false, some ("boom")⟩ ∧
    hasSession (destroySession ⟨[("k", 0)], [], []⟩ ("k") (some ("boom"))).1
      ("k") = true :=
  ⟨rfl, rfl⟩

/-- C2 amended: destroying an absent session succeeds trivially and changes
nothing; when the transport close succeeds the entry is removed (exists then
returns false) and the outcome is success; but when the close fails the
outcome reports the error and the entry remains registered, so a subsequent
exists returns true. -/
theorem destroySession_amended (st : MCPClientState) (sessionId : String)
    (closeErr : Option String) :
    (alistGet st.sessions sessionId = none →
      destroySession st sessionId closeErr = (st, ⟨true, none⟩)) ∧
    (closeErr = none →
      hasSession (destroySession st sessionId closeErr).1 sessionId = false ∧
      (destroySession st sessionId closeErr).2 = ⟨true, none⟩) ∧
    (∀ msg h₀, closeErr = some msg →
      alistGet st.sessions sessionId = some h₀ →
      (destroySession st sessionId closeErr).1.sessions = st.sessions ∧
      (destroySession st sessionId closeErr).2 = ⟨false, some msg⟩ ∧
      hasSession (destroySession st sessionId closeErr).1 sessionId = true) := by
  refine ⟨fun hnone => ?_, fun hce => ?_, fun msg h₀ hce hget => ?_⟩
  · unfold destroySession
    rw [hnone]
  · subst hce
    refine ⟨?_, ?_⟩
    · simp [hasSession, destroySession_get_ok]
    · unfold destroySession
      cases hget : alistGet st.sessions sessionId <;> rfl
  · subst hce
    refine ⟨destroySession_sessions_fail st sessionId msg, ?_, ?_⟩
    · unfold destroySession
      rw [hget]
    · simp [hasSession, destroySession_sessions_fail, hget]

/-- C2 witness: destroying the single registered session with a succeeding
close removes it and reports success. -/
theorem destroySession_amended_witness :
    hasSession (destroySession ⟨[("k", 0)], [], []⟩ ("k") none).1 ("k") =
      false ∧
    (destroySession ⟨[("k", 0)], [], []⟩ ("k") none).2 = ⟨true, none⟩ :=
  (destroySession_amended ⟨[("k", 0)], [], []⟩ ("k") none).2.1 rfl

/-- C7 counterexample: create a session, then call createSession again with a
teardown close that fails and a transport creation that fails.  The second
call reports failure, yet the first session's entry is still registered under
the key — the claim that a create failing at transport creation leaves no
entry under the key is false when the teardown close failed. -/
theorem createSession_failed_replace_cex :
    alistGet ((createSession
        ((createSession ⟨[], [], []⟩ ("k") none (.ok 0)).1)
        ("k") (some ("close failed")) (.error ("spawn failed"))).1).sessions
      ("k") = some 0 ∧
    ((createSession
        ((createSession ⟨[], [], []⟩ ("k") none (.ok 0)).1)
        ("k") (some ("close failed")) (.error ("spawn failed"))).2).success =
      false :=
  ⟨rfl, rfl⟩

/-- C7 amended: for a registry whose key holds at most one entry, two
sequential creates leave exactly one live session under the key (the second
connection), the first connection has close called on it before the second
call returns (and is actually closed whenever its close succeeds), and
teardown failures never block the recreation; when the second create fails at
transport creation the new connection is not stored — no entry remains under
the key if the teardown close succeeded, but the stale first entry remains
registered if the teardown close failed. -/
theorem createSession_twice_amended (st : MCPClientState)
    (sessionId : String) (closeErr₁ closeErr₂ : Option String) (h₁ : Nat)
    (transport₂ : Except String Nat)
    (hwf : countKey st.sessions sessionId ≤ 1) :
    (alistGet (createSession st sessionId closeErr₁ (.ok h₁)).1.sessions
        sessionId = some h₁ ∧
      (createSession st sessionId closeErr₁ (.ok h₁)).2 = ⟨true, none⟩) ∧
    (∀ h₂, transport₂ = .ok h₂ →
      alistGet (createSession
          (createSession st sessionId closeErr₁ (.ok h₁)).1
          sessionId closeErr₂ transport₂).1.sessions sessionId = some h₂ ∧
      countKey (createSession
          (createSession st sessionId closeErr₁ (.ok h₁)).1
          sessionId closeErr₂ transport₂).1.sessions sessionId = 1 ∧
      h₁ ∈ (createSession
          (createSession st sessionId closeErr₁ (.ok h₁)).1
          sessionId closeErr₂ transport₂).1.closeCalls ∧
      (closeErr₂ = none → h₁ ∈ (createSession
          (createSession st sessionId closeErr₁ (.ok h₁)).1
          sessionId closeErr₂ transport₂).1.closedOk) ∧
      (createSession
          (createSession st sessionId closeErr₁ (.ok h₁)).1
          sessionId closeErr₂ transport₂).2 = ⟨true, none⟩) ∧
    (∀ msg, transport₂ = .error msg →
      (createSession
          (createSession st sessionId closeErr₁ (.ok h₁)).1
          sessionId closeErr₂ transport₂).2 = ⟨false, some msg⟩ ∧
      (closeErr₂ = none → alistGet (createSession
          (createSession st sessionId closeErr₁ (.ok h₁)).1
          sessionId closeErr₂ transport₂).1.sessions sessionId = none) ∧
      (∀ m₂, closeErr₂ = some m₂ → alistGet (createSession
          (createSession st sessionId closeErr₁ (.ok h₁)).1
          sessionId closeErr₂ transport₂).1.sessions sessionId =
            some h₁)) := by
  have hc₁sess :
      (createSession st sessionId closeErr₁ (.ok h₁)).1.sessions =
        alistSet (destroySession st sessionId closeErr₁).1.sessions
          sessionId h₁ := rfl
  have hc₁get :
      alistGet (createSession st sessionId closeErr₁ (.ok h₁)).1.sessions
        sessionId = some h₁ := by
    rw [hc₁sess]; exact alistGet_alistSet_self _ _ _
  have hc₁count :
      countKey (createSession st sessionId closeErr₁ (.ok h₁)).1.sessions
        sessionId = 1 := by
    rw [hc₁sess]
    exact countKey_alistSet _ _ _ (countKey_destroy_le st sessionId closeErr₁ hwf)
  refine ⟨⟨hc₁get, rfl⟩, fun h₂ ht₂ => ?_, fun msg ht₂ => ?_⟩
  · subst ht₂
    have hsess₂ :
        (createSession (createSession st sessionId closeErr₁ (.ok h₁)).1
          sessionId closeErr₂ (.ok h₂)).1.sessions =
        alistSet (destroySession
          (createSession st sessionId closeErr₁ (.ok h₁)).1
          sessionId closeErr₂).1.sessions sessionId h₂ := rfl
    have hcc₂ :
        (createSession (createSession st sessionId closeErr₁ (.ok h₁)).1
          sessionId closeErr₂ (.ok h₂)).1.closeCalls =
        (destroySession (createSession st sessionId closeErr₁ (.ok h₁)).1
          sessionId closeErr₂).1.closeCalls := rfl
    have hco₂ :
        (createSession (createSession st sessionId closeErr₁ (.ok h₁)).1
          sessionId closeErr₂ (.ok h₂)).1.closedOk =
        (destroySession (createSession st sessionId closeErr₁ (.ok h₁)).1
          sessionId closeErr₂).1.closedOk := rfl
    refine ⟨?_, ?_, ?_, ?_, rfl⟩
    · rw [hsess₂]; exact alistGet_alistSet_self _ _ _
    · rw [hsess₂]
      exact countKey_alistSet _ _ _
        (countKey_destroy_le _ sessionId closeErr₂ (le_of_eq hc₁count))
    · rw [hcc₂, destroySession_closeCalls _ _ _ _ hc₁get]
      simp
    · intro hce
      subst hce
      rw [hco₂, destroySession_closedOk _ _ _ hc₁get]
      simp
  · subst ht₂
    have hsess₂ :
        (createSession (createSession st sessionId closeErr₁ (.ok h₁)).1
          sessionId closeErr₂ (.error msg)).1 =
        (destroySession (createSession st sessionId closeErr₁ (.ok h₁)).1
          sessionId closeErr₂).1 := rfl
    refine ⟨rfl, fun hce => ?_, fun m₂ hce => ?_⟩
    · subst hce
      rw [hsess₂]
      exact destroySession_get_ok _ _
    · subst hce
      rw [hsess₂, destroySession_sessions_fail]
      exact hc₁get

/-- C7 witness: from the empty registry, two successful creates under one key
leave exactly the second connection registered, with the first connection
closed. -/
theorem createSession_twice_amended_witness :
    alistGet ((createSession ((createSession ⟨[], [], []⟩ ("k") none
        (.ok 0)).1) ("k") none (.ok 1)).1).sessions ("k") = some 1 ∧
    countKey ((createSession ((createSession ⟨[], [], []⟩ ("k") none
        (.ok 0)).1) ("k") none (.ok 1)).1).sessions ("k") = 1 ∧
    0 ∈ ((createSession ((createSession ⟨[], [], []⟩ ("k") none
        (.ok 0)).1) ("k") none (.ok 1)).1).closeCalls ∧
    (none = (none : Option String) → 0 ∈ ((createSession ((createSession
        ⟨[], [], []⟩ ("k") none (.ok 0)).1) ("k") none
        (.ok 1)).1).closedOk) ∧
    ((createSession ((createSession ⟨[], [], []⟩ ("k") none (.ok 0)).1)
        ("k") none (.ok 1)).2) = ⟨true, none⟩ :=
  (createSession_twice_amended ⟨[], [], []⟩ ("k") none none 0 (.ok 1)
    (by simp [countKey])).2.1 1 rfl

/-- C10: getSessionInfo is a pure read — in this embedding it consumes the
registry state and produces only the info record — returning exists false for
an absent key and exists true with isConnected true for a present one; the
isConnected field is never the value false, whatever the actual transport
state is. -/
theorem getSessionInfo_spec (st : MCPClientState) (sessionId : String) :
    (alistGet st.sessions sessionId = none →
      getSessionInfo st sessionId = ⟨false, none⟩) ∧
    (∀ h₀, alistGet st.sessions sessionId = some h₀ →
      getSessionInfo st sessionId = ⟨true, some true⟩) ∧
    (getSessionInfo st sessionId).isConnected ≠ some false ∧
    (getSessionInfo st sessionId).sessionExists = hasSession st sessionId := by
  unfold getSessionInfo hasSession
  cases hget : alistGet st.sessions sessionId with
  | none =>
      exact ⟨fun _ => rfl, fun h₀ hsome => absurd hsome (by simp),
        by simp, rfl⟩
  | some h₀ =>
      exact ⟨fun hnone => absurd hnone (by simp), fun _ _ => rfl,
        by simp, rfl⟩

/-- C10 witness at a concrete registry with one session. -/
theorem getSessionInfo_spec_witness :
    getSessionInfo ⟨[("k", 0)], [], []⟩ ("k") = ⟨true, some true⟩ :=
  (getSessionInfo_spec ⟨[("k", 0)], [], []⟩ ("k")).2.1 0 rfl

/-- A raw tool result holding one image part with truthy data. -/
def imageRawResult : MCPToolResult :=
  ⟨some [⟨"image", none, some (.str ("base64-bytes"))⟩], none, none⟩

/-- Collaborator behavior in which the image handler's processToolResult
rejects. -/
def crashingHandlerEnv : CallToolEnv :=
  ⟨.ok imageRawResult, true, true, some ("user-1"), .ok (),
    .error ("image handler crashed")⟩

/-- Collaborator behavior in which the image handler succeeds and rewrites the
content. -/
def workingHandlerEnv : CallToolEnv :=
  ⟨.ok imageRawResult, true, true, some ("user-1"), .ok (),
    .ok ([⟨"text", some ("saved"), none⟩], some ["img-1.png"])⟩

/-- C8 counterexample: with a live session, an image-bearing raw result and a
configured post-processing collaborator whose processToolResult rejects, the
callTool invocation fails with that rejection instead of returning the raw
result — post-processing is not best-effort in the source. -/
theorem callTool_postprocessing_error_cex :
    callTool ⟨[("k", 0)], [], []⟩ ("k") ("get_chart") .null
      crashingHandlerEnv = .error ("image handler crashed") := rfl

/-- C8 amended: whenever the post-processing path is taken (live session,
successful connection call, configured handler and user-id getter, image
parts present, user id available), an error from initialize or from
processToolResult propagates and fails the whole call — the raw result is not
returned; only when both collaborator calls succeed does the call return the
rewritten result. -/
theorem callTool_postprocessing_amended (st : MCPClientState)
    (sessionId toolName : String) (args : JSValue) (env : CallToolEnv)
    (h₀ : Nat) (result : MCPToolResult) (content : List MCPContentPart)
    (uid : String)
    (hsess : alistGet st.sessions sessionId = some h₀)
    (hclient : env.clientResult = .ok result)
    (hcontent : result.content = some content)
    (hconf : env.imageHandlerConfigured = true)
    (hconf₂ : env.getUserIdConfigured = true)
    (himg : hasImages content = true)
    (huid : env.currentUserId = some uid) :
    (∀ e, env.initResult = .error e →
      callTool st sessionId toolName args env = .error e) ∧
    (∀ e, env.initResult = .ok () → env.processResult = .error e →
      callTool st sessionId toolName args env = .error e) ∧
    (∀ processed, env.initResult = .ok () →
      env.processResult = .ok processed →
      callTool st sessionId toolName args env =
        .ok { result with
              content := some processed.1,
              savedImages := processed.2 }) := by
  simp only [callTool, hsess, hclient, hcontent, hconf, hconf₂, himg, huid,
    Bool.and_self, if_true]
  refine ⟨fun e hinit => ?_, fun e hinit hproc => ?_,
    fun processed hinit hproc => ?_⟩
  · simp only [hinit]
  · simp only [hinit, hproc]
  · simp only [hinit, hproc]

/-- C8 witness: the amended theorem evaluated with a collaborator that
succeeds — the call returns the rewritten result. -/
theorem callTool_postprocessing_amended_witness :
    callTool ⟨[("k", 0)], [], []⟩ ("k") ("get_chart") .null
        workingHandlerEnv =
      .ok ⟨some [⟨"text", some ("saved"), none⟩], none,
        some ["img-1.png"]⟩ :=
  (callTool_postprocessing_amended ⟨[("k", 0)], [], []⟩ ("k") ("get_chart")
    .null workingHandlerEnv 0 imageRawResult
    [⟨"image", none, some (.str ("base64-bytes"))⟩] ("user-1")
    rfl rfl rfl rfl rfl rfl rfl).2.2
    ([⟨"text", some ("saved"), none⟩], some ["img-1.png"]) rfl rfl

/-- A confirmation request (ToolBuilder.ts checkToolConfirmation): a category
tag and a category-specific payload. -/
structure ConfirmationRequest where
  ctype : String
  data : JSValue

/-- Embedding of checkToolConfirmation (ToolBuilder.ts lines 279-329): a pure
lookup keyed on the tool name, building the category payload from the
normalized parameters. -/
def checkToolConfirmation (toolName : String) (params : JSValue) :
    Option ConfirmationRequest :=
  if toolName = "install_server" ∨ toolName = "install_mcp_server" then
    some ⟨"install", .obj [("serverId", jsGet params ("server_id")),
      ("serverName", jsGet params ("server_name")),
      ("config", jsGet params ("config"))]⟩
  else if toolName = "uninstall_server" ∨ toolName = "uninstall_mcp_server" then
    some ⟨"uninstall", .obj [("serverId", jsGet params ("server_id")),
      ("serverName", jsGet params ("server_name"))]⟩
  else if toolName = "save_playbook" then
    some ⟨"save-playbook",
      .obj [("playbookName", jsGet params ("playbook_name")),
        ("description", jsGet params ("description")),
        ("actions", jsGet params ("actions")),
        ("privacy", jsGet params ("privacy"))]⟩
  else if toolName = "submit_feedback" then
    some ⟨"submit-feedback", .obj [("vote", jsGet params ("vote")),
      ("message", jsGet params ("message"))]⟩
  else none

/-- The external decision delivered to an awaited requestConfirmation call:
an approval (optionally with an edited config), a denial, or a rejection of
the promise with some message. -/
inductive ConfirmAnswer : Type where
  | allow (editedConfig : Option JSValue) (wasEdited : Bool) : ConfirmAnswer
  | deny (reason : Option String) : ConfirmAnswer
  | threw (msg : String) : ConfirmAnswer

/-- Collaborator behavior for one tool call built by buildMCPTools: the tool
name, the already-normalized arguments (the synchronous ChatGPT rename and
deepSanitizeParams steps are verified separately and do not influence the
control flow modeled here, except through checkToolConfirmation, which
receives the normalized arguments), whether the host is interactive, the
confirmation decision, and the outcome of the registry dispatch. -/
structure ToolCallEnv where
  toolName : String
  sanitizedParams : JSValue
  interactive : Bool
  confirm : ConfirmAnswer
  dispatch : Except String MCPToolResult

/-- How one call terminated: a returned result or a thrown error. -/
inductive ToolOutcome : Type where
  | ret (r : MCPToolResult) : ToolOutcome
  | threw (msg : String) : ToolOutcome

/-- Ghost tag recording which source exit path produced the terminal state:
the early turn-signal check (line 124), a thrown cancellation from the outer
catch, an isError result from the outer catch, the confirmation-denial return
(line 194), or the successful dispatch return (line 240). -/
inductive ExitPath : Type where
  | earlyAbort : ExitPath
  | cancelledThrow : ExitPath
  | caughtError : ExitPath
  | denied : ExitPath
  | dispatchedOk : ExitPath
deriving DecidableEq

/-- Position of one call between its suspension points: about to run the
entry block; awaiting checkToolConfirmation; awaiting requestConfirmation;
awaiting the registry dispatch; or terminated. -/
inductive CallPhase : Type where
  | start : CallPhase
  | classify : CallPhase
  | confirmWait (req : ConfirmationRequest) : CallPhase
  | dispatchWait : CallPhase
  | done (o : ToolOutcome) : CallPhase

/-- State of one call: its phase, whether its private AbortController was
aborted, whether its executionId is registered in the activeToolExecutions
map, whether the registry dispatch was started (ghost, for asserting that a
denied call never dispatches), and the ghost exit tag. -/
structure CallState where
  phase : CallPhase
  ctrlAborted : Bool
  inMap : Bool
  dispatched : Bool
  exit : Option ExitPath

/-- The confirmation-denial result (ToolBuilder.ts lines 194-201): a normal
structured return, no isError flag. -/
def denialResult (reason : Option String) : MCPToolResult :=
  ⟨some [⟨"text", some ("Operation cancelled: " ++
    reason.getD ("User denied the operation")), none⟩], none, none⟩

/-- The caught-error result (ToolBuilder.ts lines 258-266): a normal return
with isError true. -/
def errorResult (msg : String) : MCPToolResult :=
  ⟨some [⟨"text", some ("Tool execution failed: " ++ msg), none⟩],
    some true, none⟩

/-- One step of a call from its current suspension point to the next, given
the collaborator behavior env and the current turn-signal state abortSig —
the embedding of the execute closure of buildMCPTools (ToolBuilder.ts lines
109-268).  Terminal states are absorbing. -/
def callStep (env : ToolCallEnv) (abortSig : Bool) (c : CallState) :
    CallState :=
  match c.phase with
  | .start =>
      let c₁ : CallState := { c with ctrlAborted := false, inMap := true }
      if abortSig then
        { c₁ with
          inMap := false,
          phase := .done (.threw ("Stream cancelled")),
          exit := some .earlyAbort }
      else if c₁.ctrlAborted then
        { c₁ with
          inMap := false,
          phase := .done (.threw ("Tool execution cancelled")),
          exit := some .cancelledThrow }
      else if env.interactive then { c₁ with phase := .classify }
      else if c₁.ctrlAborted then
        { c₁ with
          inMap := false,
          phase := .done (.threw ("Tool execution cancelled")),
          exit := some .cancelledThrow }
      else { c₁ with phase := .dispatchWait, dispatched := true }
  | .classify =>
      match checkToolConfirmation env.toolName env.sanitizedParams with
      | some req => { c with phase := .confirmWait req }
      | none =>
          if c.ctrlAborted then
            { c with
              inMap := false,
              phase := .done (.threw ("Tool execution cancelled")),
              exit := some .cancelledThrow }
          else { c with phase := .dispatchWait, dispatched := true }
  | .confirmWait _ =>
      match env.confirm with
      | .deny reason =>
          { c with
            phase := .done (.ret (denialResult reason)),
            exit := some .denied }
      | .threw msg =>
          let m := if msg = "Stream cancelled by user"
            then "Tool execution cancelled" else msg
          if c.ctrlAborted || abortSig ||
              (m = "Tool execution cancelled" : Bool) then
            { c with
              inMap := false,
              phase := .done (.threw ("Tool execution cancelled")),
              exit := some .cancelledThrow }
          else
            { c with
              inMap := false,
              phase := .done (.ret (errorResult m)),
              exit := some .caughtError }
      | .allow _ _ =>
          if c.ctrlAborted then
            { c with
              inMap := false,
              phase := .done (.threw ("Tool execution cancelled")),
              exit := some .cancelledThrow }
          else { c with phase := .dispatchWait, dispatched := true }
  | .dispatchWait =>
      match env.dispatch with
      | .ok r => { c with phase := .done (.ret r), exit := some .dispatchedOk }
      | .error msg =>
          if c.ctrlAborted || abortSig ||
              (msg = "Tool execution cancelled" : Bool) then
            { c with
              inMap := false,
              phase := .done (.threw ("Tool execution cancelled")),
              exit := some .cancelledThrow }
          else
            { c with
              inMap := false,
              phase := .done (.ret (errorResult msg)),
              exit := some .caughtError }
  | .done _ => c

/-- Effect of the turn-level abort listener (ToolBuilder.ts lines 71-92) on
one call: every controller registered in the map is aborted and the map is
cleared; calls not in the map are untouched. -/
def abortCall (c : CallState) : CallState :=
  if c.inMap then { c with ctrlAborted := true, inMap := false } else c

/-- State of one turn: the turn-level signal and the calls issued in it. -/
structure TurnState where
  abortSig : Bool
  calls : List CallState

/-- The abort event: the signal fires once and the listener synchronously
aborts every registered controller and clears the registry. -/
def abortTurn (s : TurnState) : TurnState :=
  ⟨true, s.calls.map abortCall⟩

/-- A fresh call: not yet started, controller not created, not registered. -/
def initCall : CallState := ⟨.start, false, false, false, none⟩

/-- A fresh turn with n calls in flight and the signal not yet fired. -/
def initTurn (n : Nat) : TurnState := ⟨false, List.replicate n initCall⟩

/-- Interleaving semantics of one turn: at each step either some call runs
from its current suspension point to the next (single-threaded, so the step
is atomic), or the turn-level abort event fires (at most once). -/
inductive TurnStep (envs : List ToolCallEnv) : TurnState → TurnState → Prop
  | call (s : TurnState) (i : Nat) (hi : i < s.calls.length)
      (he : i < envs.length) :
      TurnStep envs s ⟨s.abortSig, s.calls.set i
        (callStep (envs.get ⟨i, he⟩) s.abortSig (s.calls.get ⟨i, hi⟩))⟩
  | abort (s : TurnState) (h : s.abortSig = false) :
      TurnStep envs s (abortTurn s)

/-- The turn states reachable from a fresh turn of n calls. -/
def ReachableTurn (envs : List ToolCallEnv) (n : Nat) (s : TurnState) : Prop :=
  Relation.ReflTransGen (TurnStep envs) (initTurn n) s

/-- Phases between registration and the terminal state. -/
def isMidPhase : CallPhase → Bool
  | .classify => true
  | .confirmWait _ => true
  | .dispatchWait => true
  | _ => false

/-- Phases that have not yet passed the pre-dispatch checkpoint. -/
def isPreDispatchPhase : CallPhase → Bool
  | .start => true
  | .classify => true
  | .confirmWait _ => true
  | _ => false

/-- Terminal phases. -/
def isDonePhase : CallPhase → Bool
  | .done _ => true
  | _ => false

/-- Exit paths on which the source does delete the registry entry. -/
def isRemovedExit : Option ExitPath → Bool
  | some .earlyAbort => true
  | some .cancelledThrow => true
  | some .caughtError => true
  | _ => false

/-- Per-call invariant, relative to the turn signal: before the abort event a
call holds a non-aborted controller and is registered throughout its middle
phases; after the abort event no call is registered and every mid-phase call
has an aborted controller; the error and cancellation exits are unregistered;
pre-dispatch phases have not dispatched; exit tags exist only at terminal
phases. -/
def CallInv (abortSig : Bool) (c : CallState) : Prop :=
  (abortSig = false →
    c.ctrlAborted = false ∧ (isMidPhase c.phase = true → c.inMap = true)) ∧
  (abortSig = true →
    c.inMap = false ∧ (isMidPhase c.phase = true → c.ctrlAborted = true)) ∧
  (isRemovedExit c.exit = true → c.inMap = false) ∧
  (isPreDispatchPhase c.phase = true → c.dispatched = false) ∧
  (isDonePhase c.phase = false → c.exit = none)

/-- Turn-wide invariant. -/
def TurnInv (s : TurnState) : Prop := ∀ c ∈ s.calls, CallInv s.abortSig c

lemma callInv_init : CallInv false initCall := by
  simp [CallInv, initCall, isMidPhase, isRemovedExit, isPreDispatchPhase,
    isDonePhase]

lemma callInv_step (env : ToolCallEnv) (abortSig : Bool) (c : CallState)
    (h : CallInv abortSig c) : CallInv abortSig (callStep env abortSig c) := by
  obtain ⟨h₁, h₂, h₃, h₄, h₀⟩ := h
  cases hp : c.phase with
  | start =>
      have hd : c.dispatched = false := h₄ (by rw [hp]; rfl)
      have hex : c.exit = none := h₀ (by rw [hp]; rfl)
      cases habort : abortSig <;> cases hint : env.interactive <;>
        simp_all [callStep, CallInv, isMidPhase, isRemovedExit,
          isPreDispatchPhase, isDonePhase]
  | classify =>
      have hd : c.dispatched = false := h₄ (by rw [hp]; rfl)
      have hex : c.exit = none := h₀ (by rw [hp]; rfl)
      cases habort : abortSig with
      | false =>
          have hctrl : c.ctrlAborted = false := (h₁ habort).1
          have him : c.inMap = true := (h₁ habort).2 (by rw [hp]; rfl)
          cases hreq : checkToolConfirmation env.toolName
              env.sanitizedParams <;>
            simp_all [callStep, CallInv, isMidPhase, isRemovedExit,
              isPreDispatchPhase, isDonePhase]
      | true =>
          have him : c.inMap = false := (h₂ habort).1
          have hctrl : c.ctrlAborted = true := (h₂ habort).2 (by rw [hp]; rfl)
          cases hreq : checkToolConfirmation env.toolName
              env.sanitizedParams <;>
            simp_all [callStep, CallInv, isMidPhase, isRemovedExit,
              isPreDispatchPhase, isDonePhase]
  | confirmWait req =>
      have hd : c.dispatched = false := h₄ (by rw [hp]; rfl)
      have hex : c.exit = none := h₀ (by rw [hp]; rfl)
      cases habort : abortSig with
      | false =>
          have hctrl : c.ctrlAborted = false := (h₁ habort).1
          have him : c.inMap = true := (h₁ habort).2 (by rw [hp]; rfl)
          cases henv : env.confirm <;>
            (simp only [callStep, hp, henv, hctrl] <;>
             first
             | (split_ifs <;>
                 simp_all [CallInv, isMidPhase, isRemovedExit,
                   isPreDispatchPhase, isDonePhase])
             | simp_all [CallInv, isMidPhase, isRemovedExit,
                 isPreDispatchPhase, isDonePhase])
      | true =>
          have him : c.inMap = false := (h₂ habort).1
          have hctrl : c.ctrlAborted = true := (h₂ habort).2 (by rw [hp]; rfl)
          cases henv : env.confirm <;>
            (simp only [callStep, hp, henv, hctrl] <;>
             first
             | (split_ifs <;>
                 simp_all [CallInv, isMidPhase, isRemovedExit,
                   isPreDispatchPhase, isDonePhase])
             | simp_all [CallInv, isMidPhase, isRemovedExit,
                 isPreDispatchPhase, isDonePhase])
  | dispatchWait =>
      have hex : c.exit = none := h₀ (by rw [hp]; rfl)
      cases habort : abortSig with
      | false =>
          have hctrl : c.ctrlAborted = false := (h₁ habort).1
          have him : c.inMap = true := (h₁ habort).2 (by rw [hp]; rfl)
          cases hdis : env.dispatch <;>
            (simp only [callStep, hp, hdis, hctrl] <;>
             first
             | (split_ifs <;>
                 simp_all [CallInv, isMidPhase, isRemovedExit,
                   isPreDispatchPhase, isDonePhase])
             | simp_all [CallInv, isMidPhase, isRemovedExit,
                 isPreDispatchPhase, isDonePhase])
      | true =>
          have him : c.inMap = false := (h₂ habort).1
          have hctrl : c.ctrlAborted = true := (h₂ habort).2 (by rw [hp]; rfl)
          cases hdis : env.dispatch <;>
            (simp only [callStep, hp, hdis, hctrl] <;>
             first
             | (split_ifs <;>
                 simp_all [CallInv, isMidPhase, isRemovedExit,
                   isPreDispatchPhase, isDonePhase])
             | simp_all [CallInv, isMidPhase, isRemovedExit,
                 isPreDispatchPhase, isDonePhase])
  | done o =>
      simp only [callStep, hp]
      exact ⟨h₁, h₂, h₃, h₄, h₀⟩

lemma callInv_abort (c : CallState) (h : CallInv false c) :
    CallInv true (abortCall c) := by
  obtain ⟨h₁, h₂, h₃, h₄, h₀⟩ := h
  cases him : c.inMap with
  | true =>
      simp_all [abortCall, CallInv, isMidPhase, isRemovedExit,
        isPreDispatchPhase, isDonePhase]
  | false =>
      have hmid : isMidPhase c.phase = true → c.inMap = true := (h₁ rfl).2
      simp_all [abortCall, CallInv, isMidPhase, isRemovedExit,
        isPreDispatchPhase, isDonePhase]

lemma turnInv_step (envs : List ToolCallEnv) {s t : TurnState}
    (hstep : TurnStep envs s t) (hinv : TurnInv s) : TurnInv t := by
  cases hstep with
  | call i hi he =>
      intro c hc
      rcases List.mem_or_eq_of_mem_set hc with hc | hc
      · exact hinv c hc
      · subst hc
        exact callInv_step _ _ _ (hinv _ (List.get_mem s.calls _ _))
  | abort h =>
      intro c hc
      simp only [abortTurn] at hc
      obtain ⟨c₀, hc₀, rfl⟩ := List.mem_map.mp hc
      have hc₀inv := hinv c₀ hc₀
      rw [h] at hc₀inv
      exact callInv_abort c₀ hc₀inv

lemma turnInv_reachable (envs : List ToolCallEnv) (n : Nat) {s : TurnState}
    (h : ReachableTurn envs n s) : TurnInv s := by
  induction h with
  | refl =>
      intro c hc
      have hc₀ := List.eq_of_mem_replicate hc
      subst hc₀
      exact callInv_init
  | tail hsteps hstep ih => exact turnInv_step envs hstep ih

lemma abortCall_spec (c : CallState) :
    (abortCall c).inMap = false ∧
    (c.inMap = true → (abortCall c).ctrlAborted = true) := by
  cases him : c.inMap <;> simp [abortCall, him]

/-- A terminal phase carrying one of the two thrown cancellation errors. -/
def isCancelledPhase (p : CallPhase) : Prop :=
  p = .done (.threw ("Stream cancelled")) ∨
  p = .done (.threw ("Tool execution cancelled"))

lemma callStep_cancels (env : ToolCallEnv) (c : CallState)
    (hinv : CallInv true c) (hpre : isPreDispatchPhase c.phase = true)
    (hnd : ∀ reason, env.confirm ≠ ConfirmAnswer.deny reason) :
    isCancelledPhase
      ((callStep env true (callStep env true
        (callStep env true c))).phase) := by
  obtain ⟨h₁, h₂, h₃, h₄, h₀⟩ := hinv
  cases hp : c.phase with
  | start => simp [callStep, hp, isCancelledPhase]
  | classify =>
      have hctrl : c.ctrlAborted = true := (h₂ rfl).2 (by rw [hp]; rfl)
      cases hreq : checkToolConfirmation env.toolName env.sanitizedParams with
      | none => simp [callStep, hp, hreq, hctrl, isCancelledPhase]
      | some req =>
          cases henv : env.confirm with
          | deny reason => exact absurd henv (hnd reason)
          | threw msg => simp [callStep, hp, hreq, henv, hctrl, isCancelledPhase]
          | allow e w => simp [callStep, hp, hreq, henv, hctrl, isCancelledPhase]
  | confirmWait req =>
      have hctrl : c.ctrlAborted = true := (h₂ rfl).2 (by rw [hp]; rfl)
      cases henv : env.confirm with
      | deny reason => exact absurd henv (hnd reason)
      | threw msg => simp [callStep, hp, henv, hctrl, isCancelledPhase]
      | allow e w => simp [callStep, hp, henv, hctrl, isCancelledPhase]
  | dispatchWait =>
      rw [hp] at hpre
      exact absurd hpre (by simp [isPreDispatchPhase])
  | done o =>
      rw [hp] at hpre
      exact absurd hpre (by simp [isPreDispatchPhase])

/-- C3 amended: for every reachable turn state, the cancellation event
synchronously aborts every per-call controller registered in the
active-executions map and leaves the map empty; after the event, every call
that has not yet passed the pre-dispatch checkpoint terminates in the
cancelled state under any collaborator behavior whose confirmation answer is
not a denial; a call already awaiting its dispatch result is past its last
checkpoint and may still complete successfully (see the counterexample). -/
theorem turn_cancellation_amended (envs : List ToolCallEnv) (n : Nat)
    (s : TurnState) (hreach : ReachableTurn envs n s) :
    (s.abortSig = false →
      (abortTurn s).abortSig = true ∧
      (∀ c ∈ (abortTurn s).calls, c.inMap = false) ∧
      (∀ c ∈ s.calls, c.inMap = true →
        (abortCall c).ctrlAborted = true ∧ (abortCall c).inMap = false)) ∧
    (s.abortSig = true →
      ∀ c ∈ s.calls, isPreDispatchPhase c.phase = true →
        ∀ env : ToolCallEnv,
          (∀ reason, env.confirm ≠ ConfirmAnswer.deny reason) →
          isCancelledPhase ((callStep env true (callStep env true
            (callStep env true c))).phase)) := by
  have hinv := turnInv_reachable envs n hreach
  refine ⟨fun hsig => ⟨rfl, ?_, ?_⟩, fun hsig c hc hpre env hnd => ?_⟩
  · intro c hc
    simp only [abortTurn] at hc
    obtain ⟨c₀, _, rfl⟩ := List.mem_map.mp hc
    exact (abortCall_spec c₀).1
  · intro c hc him
    exact ⟨(abortCall_spec c).2 him, (abortCall_spec c).1⟩
  · have hcinv := hinv c hc
    rw [hsig] at hcinv
    exact callStep_cancels env c hcinv hpre hnd

/-- A successful dispatch result used by the concrete traces below. -/
def okToolResult : MCPToolResult := ⟨some [⟨"text", some ("42"), none⟩],
  none, none⟩

/-- Collaborator behavior: non-interactive host, dispatch resolves with
okToolResult. -/
def plainDispatchEnv : ToolCallEnv := ⟨"get_data", .null, false,
  .allow none false, .ok okToolResult⟩

/-- C3 counterexample: one call reaches its dispatch await, the turn is then
cancelled (its controller is aborted and the map cleared), and the dispatch
still resolves — the call terminates with a successful result after the turn
was cancelled, refuting the claim that every in-flight call terminates in the
cancelled state. -/
theorem turn_cancellation_cex :
    ReachableTurn [plainDispatchEnv] 1
      ⟨true, [⟨.done (.ret okToolResult), true, false, true,
        some ExitPath.dispatchedOk⟩]⟩ ∧
    okToolResult.isError = none := by
  refine ⟨?_, rfl⟩
  have h1 : TurnStep [plainDispatchEnv] (initTurn 1)
      ⟨false, [⟨.dispatchWait, false, true, true, none⟩]⟩ :=
    TurnStep.call (initTurn 1) 0 (by simp [initTurn]) (by simp)
  have h2 : TurnStep [plainDispatchEnv]
      ⟨false, [⟨.dispatchWait, false, true, true, none⟩]⟩
      ⟨true, [⟨.dispatchWait, true, false, true, none⟩]⟩ :=
    TurnStep.abort _ rfl
  have h3 : TurnStep [plainDispatchEnv]
      ⟨true, [⟨.dispatchWait, true, false, true, none⟩]⟩
      ⟨true, [⟨.done (.ret okToolResult), true, false, true,
        some ExitPath.dispatchedOk⟩]⟩ :=
    TurnStep.call _ 0 (by simp) (by simp)
  exact Relation.ReflTransGen.tail
    (Relation.ReflTransGen.tail (Relation.ReflTransGen.single h1) h2) h3

/-- Collaborator behavior whose confirmation answer is an approval. -/
def noDenyEnv : ToolCallEnv := ⟨"get_data", .null, true, .allow none false,
  .ok okToolResult⟩

/-- C3 witness: after the abort event fires on a fresh one-call turn, the
not-yet-started call runs to a cancelled terminal state. -/
theorem turn_cancellation_amended_witness :
    isCancelledPhase ((callStep noDenyEnv true (callStep noDenyEnv true
      (callStep noDenyEnv true initCall))).phase) := by
  have hreach : ReachableTurn [noDenyEnv] 1 (abortTurn (initTurn 1)) :=
    Relation.ReflTransGen.single (TurnStep.abort _ rfl)
  exact (turn_cancellation_amended [noDenyEnv] 1 (abortTurn (initTurn 1))
    hreach).2 rfl initCall
    (by simp [abortTurn, initTurn, abortCall, initCall]) rfl noDenyEnv
    (fun reason => by simp [noDenyEnv])

/-- C1 amended: in every reachable turn state, the pending-execution entry of
a call is removed on the error and cancellation exit paths (early
turn-signal abort, thrown cancellation, caught error); on the
successful-dispatch and confirmation-denial returns the source does not
remove the entry — it stays registered until the turn-level abort listener
clears the whole map (see the counterexample). -/
theorem pending_execution_cleanup_amended (envs : List ToolCallEnv) (n : Nat)
    (s : TurnState) (hreach : ReachableTurn envs n s) :
    ∀ c ∈ s.calls,
      (c.exit = some ExitPath.earlyAbort ∨
       c.exit = some ExitPath.cancelledThrow ∨
       c.exit = some ExitPath.caughtError) → c.inMap = false := by
  intro c hc hex
  apply (turnInv_reachable envs n hreach c hc).2.2.1
  rcases hex with h | h | h <;> simp [isRemovedExit, h]

/-- C1 counterexample: a call that dispatches successfully returns its result
with its pending-execution entry still registered in the map — the claim that
the entry is removed on every exit path fails on the successful-dispatch
path (the confirmation-denial return leaves the entry registered in the same
way). -/
theorem pending_execution_cleanup_cex :
    ReachableTurn [plainDispatchEnv] 1
      ⟨false, [⟨.done (.ret okToolResult), false, true, true,
        some ExitPath.dispatchedOk⟩]⟩ ∧
    (⟨.done (.ret okToolResult), false, true, true,
      some ExitPath.dispatchedOk⟩ : CallState).inMap = true := by
  refine ⟨?_, rfl⟩
  have h1 : TurnStep [plainDispatchEnv] (initTurn 1)
      ⟨false, [⟨.dispatchWait, false, true, true, none⟩]⟩ :=
    TurnStep.call (initTurn 1) 0 (by simp [initTurn]) (by simp)
  have h2 : TurnStep [plainDispatchEnv]
      ⟨false, [⟨.dispatchWait, false, true, true, none⟩]⟩
      ⟨false, [⟨.done (.ret okToolResult), false, true, true,
        some ExitPath.dispatchedOk⟩]⟩ :=
    TurnStep.call _ 0 (by simp) (by simp)
  exact Relation.ReflTransGen.tail (Relation.ReflTransGen.single h1) h2

/-- Collaborator behavior whose dispatch rejects with a plain error. -/
def failingDispatchEnv : ToolCallEnv := ⟨"get_data", .null, false,
  .allow none false, .error ("boom")⟩

/-- C1 witness: a call that ends on the caught-error exit path has its entry
removed. -/
theorem pending_execution_cleanup_amended_witness :
    (⟨.done (.ret (errorResult ("boom"))), false, false, true,
      some ExitPath.caughtError⟩ : CallState).inMap = false := by
  have h1 : TurnStep [failingDispatchEnv] (initTurn 1)
      ⟨false, [⟨.dispatchWait, false, true, true, none⟩]⟩ :=
    TurnStep.call (initTurn 1) 0 (by simp [initTurn]) (by simp)
  have h2 : TurnStep [failingDispatchEnv]
      ⟨false, [⟨.dispatchWait, false, true, true, none⟩]⟩
      ⟨false, [⟨.done (.ret (errorResult ("boom"))), false, false, true,
        some ExitPath.caughtError⟩]⟩ :=
    TurnStep.call _ 0 (by simp) (by simp)
  exact pending_execution_cleanup_amended [failingDispatchEnv] 1
    ⟨false, [⟨.done (.ret (errorResult ("boom"))), false, false, true,
      some ExitPath.caughtError⟩]⟩
    (Relation.ReflTransGen.tail (Relation.ReflTransGen.single h1) h2)
    ⟨.done (.ret (errorResult ("boom"))), false, false, true,
      some ExitPath.caughtError⟩
    (by simp) (Or.inr (Or.inr rfl))

/-- C4: in every reachable turn state, a call whose awaited confirmation is
answered with allowed false short-circuits: the step returns the denial
notice as a normal structured result — no thrown error, no isError flag, the
text a user-visible cancellation message — and the registry dispatch has not
been invoked for that execution and never is afterwards (the terminal state
absorbs further steps and the abort listener does not dispatch). -/
theorem confirmation_denial_short_circuits (envs : List ToolCallEnv) (n : Nat)
    (s : TurnState) (hreach : ReachableTurn envs n s) (c : CallState)
    (hc : c ∈ s.calls) (req : ConfirmationRequest)
    (hphase : c.phase = .confirmWait req) (env : ToolCallEnv)
    (reason : Option String) (hdeny : env.confirm = .deny reason)
    (abortSig : Bool) :
    (callStep env abortSig c).phase = .done (.ret (denialResult reason)) ∧
    (denialResult reason).isError = none ∧
    (denialResult reason).content = some [⟨"text",
      some ("Operation cancelled: " ++
        reason.getD ("User denied the operation")), none⟩] ∧
    c.dispatched = false ∧
    (callStep env abortSig c).dispatched = false ∧
    (∀ (env₂ : ToolCallEnv) (sig₂ : Bool),
      callStep env₂ sig₂ (callStep env abortSig c) =
        callStep env abortSig c) ∧
    (abortCall (callStep env abortSig c)).dispatched = false := by
  have hd : c.dispatched = false :=
    (turnInv_reachable envs n hreach c hc).2.2.2.1 (by rw [hphase]; rfl)
  refine ⟨?_, rfl, rfl, hd, ?_, ?_, ?_⟩
  · simp [callStep, hphase, hdeny]
  · simp [callStep, hphase, hdeny, hd]
  · intro env₂ sig₂
    simp [callStep, hphase, hdeny]
  · cases him : c.inMap <;>
      simp [callStep, hphase, hdeny, abortCall, hd, him]

/-- Collaborator behavior: interactive host, install tool, denial with a
reason. -/
def denyingConfirmEnv : ToolCallEnv := ⟨"install_server",
  .obj [("server_id", .str ("weather"))], true,
  .deny (some ("User denied")), .ok okToolResult⟩

/-- The confirmation request produced for the install_server call of the
witness trace. -/
def witnessInstallReq : ConfirmationRequest := ⟨"install",
  .obj [("serverId", .str ("weather")), ("serverName", .undefined),
    ("config", .undefined)]⟩

/-- C4 witness: a concrete reachable call awaiting its install confirmation,
answered with a denial, returns the denial notice and never dispatches. -/
theorem confirmation_denial_short_circuits_witness :
    (callStep denyingConfirmEnv false
      ⟨.confirmWait witnessInstallReq, false, true, false, none⟩).phase =
      .done (.ret (denialResult (some ("User denied")))) ∧
    (callStep denyingConfirmEnv false
      ⟨.confirmWait witnessInstallReq, false, true, false, none⟩).dispatched =
      false := by
  have h1 : TurnStep [denyingConfirmEnv] (initTurn 1)
      ⟨false, [⟨.classify, false, true, false, none⟩]⟩ :=
    TurnStep.call (initTurn 1) 0 (by simp [initTurn]) (by simp)
  have h2 : TurnStep [denyingConfirmEnv]
      ⟨false, [⟨.classify, false, true, false, none⟩]⟩
      ⟨false, [⟨.confirmWait witnessInstallReq, false, true, false, none⟩]⟩ :=
    TurnStep.call _ 0 (by simp) (by simp)
  have h := confirmation_denial_short_circuits [denyingConfirmEnv] 1
    ⟨false, [⟨.confirmWait witnessInstallReq, false, true, false, none⟩]⟩
    (Relation.ReflTransGen.tail (Relation.ReflTransGen.single h1) h2)
    ⟨.confirmWait witnessInstallReq, false, true, false, none⟩
    (by simp) witnessInstallReq rfl denyingConfirmEnv
    (some ("User denied")) rfl false
  exact ⟨h.1, h.2.2.2.2.1⟩
